import Mathlib

set_option maxHeartbeats 1000000

/-!
Verification development for the type-guardian repository: a shallow
embedding of the Python `ast`-based data model and of the core operations
(the type unifier and inference engine in
`type_guardian/inference/type_inferrer.py`, the four fixers under
`type_guardian/fixers/`, and the batch loop of `type_guardian/runner.py`),
together with theorems settling the frozen claims about them.

Modelling conventions:
* A Python `ast` tree is modelled by the inductives `Expr`, `Stmt`, `Arg`,
  `Module` below, restricted to the node kinds the analysed code touches.
  Source-location metadata is an `Option Loc` field on every node: nodes
  freshly constructed by the fixers carry `none`, exactly as fresh Python
  nodes lack `lineno` until `ast.copy_location` runs.
* Python object identity (`is`) between nodes is modelled by structural
  equality, computed by the `beqExpr`/`beqStmt`/`beqNode` functions; within
  one parsed tree every node occurrence is distinct, so the two coincide.
* `ast.walk` (breadth-first traversal) is `walk` below; its fuel is the
  total node count of the tree, which bounds the number of dequeue steps.
* The mutable `TypeInferrer.type_cache` dict is threaded explicitly as a
  `Cache` association list; recursion through `_lookup_variable_type` is
  bounded by an explicit fuel parameter (the Python original can recurse
  unboundedly on self-referential assignments, where it would hit the
  interpreter recursion limit).
-/

namespace TypeGuardian

/-- Source location metadata (`lineno`, `col_offset`). -/
structure Loc where
  line : Nat
  col : Nat

/-- Python constant values, up to what the inferrer inspects: the runtime
type tag (`type(value).__name__`) and whether the value is `None`. -/
inductive ConstVal where
  | noneV
  | boolV (b : Bool)
  | intV (n : Int)
  | floatV (s : String)
  | strV (s : String)
  | ellipsisV

/-- `type(value).__name__` for a constant. -/
def ConstVal.typeName : ConstVal → String
  | .noneV => "NoneType"
  | .boolV _ => "bool"
  | .intV _ => "int"
  | .floatV _ => "float"
  | .strV _ => "str"
  | .ellipsisV => "ellipsis"

/-- Binary operator kinds; only Add/Sub/Mult/Div are distinguished by the
analysed code, all remaining operators behave alike (`otherOp`). -/
inductive BinOpKind where
  | add | sub | mult | div | otherOp

/-- `op.__class__.__name__` for a binary operator. -/
def BinOpKind.opName : BinOpKind → String
  | .add => "Add"
  | .sub => "Sub"
  | .mult => "Mult"
  | .div => "Div"
  | .otherOp => "OtherOp"

/-- Comparison operator kinds; only `Is` and `IsNot` are distinguished. -/
inductive CmpOp where
  | isOp | isNotOp | otherCmp

/-- Python expressions (`ast.expr`), restricted to the kinds the analysed
code constructs or dispatches on. -/
inductive Expr where
  | constant (v : ConstVal) (loc : Option Loc)
  | name (id : String) (loc : Option Loc)
  | call (func : Expr) (args : List Expr) (loc : Option Loc)
  | attr (value : Expr) (attrName : String) (loc : Option Loc)
  | subscript (value : Expr) (slice : Expr) (loc : Option Loc)
  | listE (elts : List Expr) (loc : Option Loc)
  | dictE (keys : List (Option Expr)) (values : List Expr) (loc : Option Loc)
  | setE (elts : List Expr) (loc : Option Loc)
  | tupleE (elts : List Expr) (loc : Option Loc)
  | binOp (left : Expr) (op : BinOpKind) (right : Expr) (loc : Option Loc)
  | compare (left : Expr) (ops : List CmpOp) (comparators : List Expr) (loc : Option Loc)
  | boolOp (values : List Expr) (loc : Option Loc)
  | ifExp (test : Expr) (body : Expr) (orelse : Expr) (loc : Option Loc)

/-- A function parameter (`ast.arg`). -/
structure Arg where
  argName : String
  annot : Option Expr
  loc : Option Loc

/-- An import alias (`ast.alias`). -/
structure Alias where
  aliasName : String
  asname : Option String

/-- Python statements (`ast.stmt`), restricted to the kinds the analysed
code constructs or dispatches on. -/
inductive Stmt where
  | functionDef (fname : String) (args : List Arg) (body : List Stmt)
      (retAnnot : Option Expr) (loc : Option Loc)
  | ret (value : Option Expr) (loc : Option Loc)
  | assign (targets : List Expr) (value : Expr) (loc : Option Loc)
  | annAssign (target : Expr) (annot : Expr) (value : Option Expr)
      (simple : Nat) (loc : Option Loc)
  | ifS (test : Expr) (body : List Stmt) (orelse : List Stmt) (loc : Option Loc)
  | forS (target : Expr) (iter : Expr) (body : List Stmt) (orelse : List Stmt)
      (loc : Option Loc)
  | exprS (value : Expr) (loc : Option Loc)
  | importS (names : List Alias) (loc : Option Loc)
  | importFrom (mod : Option String) (names : List Alias) (level : Nat)
      (loc : Option Loc)

/-- A module (`ast.Module`): the root of a parsed tree. -/
structure Module where
  body : List Stmt

/-- The universe of tree nodes yielded by `ast.walk`: the module root,
statements, expressions and `ast.arg` parameter nodes.  (Operator tokens,
expression contexts and import aliases carry no behaviour in the analysed
code and are not enumerated.) -/
inductive Node where
  | moduleN (m : Module)
  | stmtN (s : Stmt)
  | exprN (e : Expr)
  | argN (a : Arg)

section Equality

def beqLoc : Option Loc → Option Loc → Bool
  | none, none => true
  | some a, some b => a.line = b.line ∧ a.col = b.col
  | _, _ => false

def beqConst : ConstVal → ConstVal → Bool
  | .noneV, .noneV => true
  | .boolV a, .boolV b => a = b
  | .intV a, .intV b => a = b
  | .floatV a, .floatV b => a = b
  | .strV a, .strV b => a = b
  | .ellipsisV, .ellipsisV => true
  | _, _ => false

def beqBinOpKind (a b : BinOpKind) : Bool := a.opName = b.opName

def beqCmpOp : CmpOp → CmpOp → Bool
  | .isOp, .isOp => true
  | .isNotOp, .isNotOp => true
  | .otherCmp, .otherCmp => true
  | _, _ => false

mutual

/-- Structural equality of expressions, the model of Python node identity. -/
def beqExpr : Expr → Expr → Bool
  | .constant v l, .constant w m => beqConst v w && beqLoc l m
  | .name a l, .name b m => a = b && beqLoc l m
  | .call f as l, .call g bs m => beqExpr f g && beqExprList as bs && beqLoc l m
  | .attr v a l, .attr w b m => beqExpr v w && a = b && beqLoc l m
  | .subscript v s l, .subscript w t m => beqExpr v w && beqExpr s t && beqLoc l m
  | .listE as l, .listE bs m => beqExprList as bs && beqLoc l m
  | .dictE ks vs l, .dictE ls ws m =>
      beqOptExprList ks ls && beqExprList vs ws && beqLoc l m
  | .setE as l, .setE bs m => beqExprList as bs && beqLoc l m
  | .tupleE as l, .tupleE bs m => beqExprList as bs && beqLoc l m
  | .binOp a o b l, .binOp c p d m =>
      beqExpr a c && beqBinOpKind o p && beqExpr b d && beqLoc l m
  | .compare a os cs l, .compare b ps ds m =>
      beqExpr a b && (os.length = ps.length && (os.zip ps).all fun q => beqCmpOp q.1 q.2)
        && beqExprList cs ds && beqLoc l m
  | .boolOp as l, .boolOp bs m => beqExprList as bs && beqLoc l m
  | .ifExp t b o l, .ifExp u c p m =>
      beqExpr t u && beqExpr b c && beqExpr o p && beqLoc l m
  | _, _ => false

def beqExprList : List Expr → List Expr → Bool
  | [], [] => true
  | a :: as, b :: bs => beqExpr a b && beqExprList as bs
  | _, _ => false

def beqOptExprList : List (Option Expr) → List (Option Expr) → Bool
  | [], [] => true
  | none :: as, none :: bs => beqOptExprList as bs
  | some a :: as, some b :: bs => beqExpr a b && beqOptExprList as bs
  | _, _ => false

end

def beqOptExpr : Option Expr → Option Expr → Bool
  | none, none => true
  | some a, some b => beqExpr a b
  | _, _ => false

def beqArg (a b : Arg) : Bool :=
  a.argName = b.argName && beqOptExpr a.annot b.annot && beqLoc a.loc b.loc

def beqAlias (a b : Alias) : Bool :=
  a.aliasName = b.aliasName && a.asname = b.asname

mutual

/-- Structural equality of statements, the model of Python node identity. -/
def beqStmt : Stmt → Stmt → Bool
  | .functionDef n as b r l, .functionDef n2 as2 b2 r2 l2 =>
      n = n2 && (as.length = as2.length && (as.zip as2).all fun q => beqArg q.1 q.2)
        && beqStmtList b b2 && beqOptExpr r r2 && beqLoc l l2
  | .ret v l, .ret w m => beqOptExpr v w && beqLoc l m
  | .assign ts v l, .assign us w m =>
      beqExprList ts us && beqExpr v w && beqLoc l m
  | .annAssign t a v s l, .annAssign u b w s2 m =>
      beqExpr t u && beqExpr a b && beqOptExpr v w && s = s2 && beqLoc l m
  | .ifS t b o l, .ifS u b2 o2 m =>
      beqExpr t u && beqStmtList b b2 && beqStmtList o o2 && beqLoc l m
  | .forS t i b o l, .forS u j b2 o2 m =>
      beqExpr t u && beqExpr i j && beqStmtList b b2 && beqStmtList o o2 && beqLoc l m
  | .exprS v l, .exprS w m => beqExpr v w && beqLoc l m
  | .importS ns l, .importS ms m =>
      (ns.length = ms.length && (ns.zip ms).all fun q => beqAlias q.1 q.2) && beqLoc l m
  | .importFrom md ns lv l, .importFrom md2 ms lv2 m =>
      md = md2 && (ns.length = ms.length && (ns.zip ms).all fun q => beqAlias q.1 q.2)
        && lv = lv2 && beqLoc l m
  | _, _ => false

def beqStmtList : List Stmt → List Stmt → Bool
  | [], [] => true
  | a :: as, b :: bs => beqStmt a b && beqStmtList as bs
  | _, _ => false

end

/-- Structural equality of walk nodes, the model of Python node identity. -/
def beqNode : Node → Node → Bool
  | .moduleN a, .moduleN b => beqStmtList a.body b.body
  | .stmtN a, .stmtN b => beqStmt a b
  | .exprN a, .exprN b => beqExpr a b
  | .argN a, .argN b => beqArg a b
  | _, _ => false

end Equality

section Walk

mutual

/-- Number of walk nodes in an expression subtree. -/
def exprCount : Expr → Nat
  | .constant _ _ => 1
  | .name _ _ => 1
  | .call f args _ => 1 + exprCount f + exprListCount args
  | .attr v _ _ => 1 + exprCount v
  | .subscript v s _ => 1 + exprCount v + exprCount s
  | .listE es _ => 1 + exprListCount es
  | .dictE ks vs _ => 1 + optExprListCount ks + exprListCount vs
  | .setE es _ => 1 + exprListCount es
  | .tupleE es _ => 1 + exprListCount es
  | .binOp l _ r _ => 1 + exprCount l + exprCount r
  | .compare l _ cs _ => 1 + exprCount l + exprListCount cs
  | .boolOp vs _ => 1 + exprListCount vs
  | .ifExp t b o _ => 1 + exprCount t + exprCount b + exprCount o

def exprListCount : List Expr → Nat
  | [] => 0
  | e :: es => exprCount e + exprListCount es

def optExprListCount : List (Option Expr) → Nat
  | [] => 0
  | none :: es => optExprListCount es
  | some e :: es => exprCount e + optExprListCount es

end

def optExprCount : Option Expr → Nat
  | none => 0
  | some e => exprCount e

def argCount (a : Arg) : Nat := 1 + optExprCount a.annot

def argListCount : List Arg → Nat
  | [] => 0
  | a :: as => argCount a + argListCount as

mutual

/-- Number of walk nodes in a statement subtree. -/
def stmtCount : Stmt → Nat
  | .functionDef _ args body r _ =>
      1 + argListCount args + stmtListCount body + optExprCount r
  | .ret v _ => 1 + optExprCount v
  | .assign ts v _ => 1 + exprListCount ts + exprCount v
  | .annAssign t a v _ _ => 1 + exprCount t + exprCount a + optExprCount v
  | .ifS t b o _ => 1 + exprCount t + stmtListCount b + stmtListCount o
  | .forS t i b o _ =>
      1 + exprCount t + exprCount i + stmtListCount b + stmtListCount o
  | .exprS v _ => 1 + exprCount v
  | .importS _ _ => 1
  | .importFrom _ _ _ _ => 1

def stmtListCount : List Stmt → Nat
  | [] => 0
  | s :: ss => stmtCount s + stmtListCount ss

end

/-- Number of walk nodes of a tree rooted at `n`. -/
def nodeCount : Node → Nat
  | .moduleN m => 1 + stmtListCount m.body
  | .stmtN s => stmtCount s
  | .exprN e => exprCount e
  | .argN a => argCount a

/-- Direct children of an expression, in `_fields` order
(cf. `ast.iter_child_nodes`). -/
def exprChildren : Expr → List Node
  | .constant _ _ => []
  | .name _ _ => []
  | .call f args _ => .exprN f :: args.map .exprN
  | .attr v _ _ => [.exprN v]
  | .subscript v s _ => [.exprN v, .exprN s]
  | .listE es _ => es.map .exprN
  | .dictE ks vs _ => (ks.filterMap id).map .exprN ++ vs.map .exprN
  | .setE es _ => es.map .exprN
  | .tupleE es _ => es.map .exprN
  | .binOp l _ r _ => [.exprN l, .exprN r]
  | .compare l _ cs _ => .exprN l :: cs.map .exprN
  | .boolOp vs _ => vs.map .exprN
  | .ifExp t b o _ => [.exprN t, .exprN b, .exprN o]

/-- Direct children of a statement, in `_fields` order. -/
def stmtChildren : Stmt → List Node
  | .functionDef _ args body r _ =>
      args.map .argN ++ body.map .stmtN ++ (r.map .exprN).toList
  | .ret v _ => (v.map .exprN).toList
  | .assign ts v _ => ts.map .exprN ++ [.exprN v]
  | .annAssign t a v _ _ => .exprN t :: .exprN a :: (v.map .exprN).toList
  | .ifS t b o _ => .exprN t :: (b.map .stmtN ++ o.map .stmtN)
  | .forS t i b o _ =>
      .exprN t :: .exprN i :: (b.map .stmtN ++ o.map .stmtN)
  | .exprS v _ => [.exprN v]
  | .importS _ _ => []
  | .importFrom _ _ _ _ => []

/-- Direct children of a walk node. -/
def nodeChildren : Node → List Node
  | .moduleN m => m.body.map .stmtN
  | .stmtN s => stmtChildren s
  | .exprN e => exprChildren e
  | .argN a => (a.annot.map .exprN).toList

/-- Breadth-first queue processing with explicit fuel; each step dequeues
one node and enqueues its children, as `ast.walk` does. -/
def walkAux : Nat → List Node → List Node
  | 0, _ => []
  | _ + 1, [] => []
  | fuel + 1, n :: rest => n :: walkAux fuel (rest ++ nodeChildren n)

/-- `ast.walk(n)`: the node itself and all its descendants in breadth-first
order.  The fuel `nodeCount n` equals the number of nodes of the tree,
hence the number of dequeue steps of a complete traversal. -/
def walk (n : Node) : List Node := walkAux (nodeCount n) [n]

/-- `getattr(node, 'lineno', None)`; `none` both for node kinds that have
no `lineno` attribute (the module root) and for freshly built nodes. -/
def nodeLine : Node → Option Nat
  | .moduleN _ => none
  | .stmtN s => (match s with
      | .functionDef _ _ _ _ l => l | .ret _ l => l | .assign _ _ l => l
      | .annAssign _ _ _ _ l => l | .ifS _ _ _ l => l | .forS _ _ _ _ l => l
      | .exprS _ l => l | .importS _ l => l
      | .importFrom _ _ _ l => l).map Loc.line
  | .exprN e => (match e with
      | .constant _ l => l | .name _ l => l | .call _ _ l => l
      | .attr _ _ l => l | .subscript _ _ l => l | .listE _ l => l
      | .dictE _ _ l => l | .setE _ l => l | .tupleE _ l => l
      | .binOp _ _ _ l => l | .compare _ _ _ l => l | .boolOp _ l => l
      | .ifExp _ _ _ l => l).map Loc.line
  | .argN a => a.loc.map Loc.line

/-- `_find_node_at_line` (shared by the fixers): first node of the walk
whose `lineno` equals `line`. -/
def findNodeAtLine (root : Node) (line : Nat) : Option Node :=
  (walk root).find? fun n => nodeLine n = some line

end Walk

section StringOrder


/-- Byte-wise (code-point) lexicographic comparison of character lists. -/
def charListLeb : List Char → List Char → Bool
  | [], _ => true
  | _ :: _, [] => false
  | c :: cs, d :: ds =>
      if c.toNat < d.toNat then true
      else if d.toNat < c.toNat then false
      else charListLeb cs ds

def strLeb (a b : String) : Bool := charListLeb a.toList b.toList

def strLe (a b : String) : Prop := strLeb a b = true

instance : DecidableRel strLe := fun a b => instDecidableEqBool (strLeb a b) true

theorem charToNat_inj {c d : Char} (h : c.toNat = d.toNat) : c = d :=
  Char.eq_of_val_eq (UInt32.ext h)

theorem charListLeb_total : ∀ a b, charListLeb a b = true ∨ charListLeb b a = true := by
  intro a
  induction a with
  | nil => intro b; left; rfl
  | cons c cs ih =>
      intro b
      cases b with
      | nil => right; rfl
      | cons d ds =>
          simp only [charListLeb]
          rcases Nat.lt_trichotomy c.toNat d.toNat with h | h | h
          · left; simp [h]
          · rcases ih ds with h2 | h2
            · left; simp [h, h2]
            · right; simp [h, h2]
          · right; simp [h, Nat.lt_asymm h]

theorem charListLeb_antisymm :
    ∀ a b, charListLeb a b = true → charListLeb b a = true → a = b := by
  intro a
  induction a with
  | nil =>
      intro b _ h2
      cases b with
      | nil => rfl
      | cons d ds => simp [charListLeb] at h2
  | cons c cs ih =>
      intro b h1 h2
      cases b with
      | nil => simp [charListLeb] at h1
      | cons d ds =>
          simp only [charListLeb] at h1 h2
          by_cases h : c.toNat < d.toNat
          · simp [h, Nat.lt_asymm h] at h2
          · by_cases h3 : d.toNat < c.toNat
            · simp [h, h3] at h1
            · have hcd : c = d := charToNat_inj (by omega)
              subst hcd
              simp [h] at h1 h2
              rw [ih ds h1 h2]

theorem charListLeb_trans :
    ∀ a b c, charListLeb a b = true → charListLeb b c = true → charListLeb a c = true := by
  intro a
  induction a with
  | nil => intro b c _ _; rfl
  | cons x xs ih =>
      intro b c h1 h2
      cases b with
      | nil => simp [charListLeb] at h1
      | cons y ys =>
          cases c with
          | nil => simp [charListLeb] at h2
          | cons z zs =>
              simp only [charListLeb] at h1 h2 ⊢
              by_cases hxy : x.toNat < y.toNat
              · by_cases hyz : y.toNat < z.toNat
                · simp [Nat.lt_trans hxy hyz]
                · by_cases hzy : z.toNat < y.toNat
                  · simp [hyz, hzy] at h2
                  · have : x.toNat < z.toNat := by omega
                    simp [this]
              · by_cases hyx : y.toNat < x.toNat
                · simp [hxy, hyx] at h1
                · by_cases hyz : y.toNat < z.toNat
                  · have : x.toNat < z.toNat := by omega
                    simp [this]
                  · by_cases hzy : z.toNat < y.toNat
                    · simp [hyz, hzy] at h2
                    · have hxz : ¬ x.toNat < z.toNat := by omega
                      have hzx : ¬ z.toNat < x.toNat := by omega
                      simp only [if_neg hxz, if_neg hzx]
                      simp [hxy, hyx] at h1
                      simp [hyz, hzy] at h2
                      exact ih ys zs h1 h2

instance : IsTotal String strLe := ⟨fun a b => charListLeb_total a.toList b.toList⟩
instance : IsTrans String strLe :=
  ⟨fun a b c h1 h2 => charListLeb_trans a.toList b.toList c.toList h1 h2⟩
instance : IsAntisymm String strLe :=
  ⟨fun a b h1 h2 => by
    have h3 := charListLeb_antisymm a.toList b.toList h1 h2
    cases a; cases b
    congr 1⟩

def sortedStrings (s : Finset String) : List String :=
  Quot.liftOn s.val (fun l => List.insertionSort strLe l)
    (fun l1 l2 h =>
      List.eq_of_perm_of_sorted
        ((List.perm_insertionSort strLe l1).trans
          (h.trans (List.perm_insertionSort strLe l2).symm))
        (List.sorted_insertionSort strLe l1) (List.sorted_insertionSort strLe l2))

theorem mem_sortedStrings {s : Finset String} {x : String} :
    x ∈ sortedStrings s ↔ x ∈ s := by
  rcases s with ⟨m, hm⟩
  induction m using Quot.inductionOn
  simp only [sortedStrings, Finset.mem_mk]
  exact (List.perm_insertionSort strLe _).mem_iff

theorem nodup_sortedStrings (s : Finset String) : (sortedStrings s).Nodup := by
  rcases s with ⟨m, hm⟩
  induction m using Quot.inductionOn
  exact ((List.perm_insertionSort strLe _).nodup_iff).mpr hm

theorem sortedStrings_singleton (t : String) : sortedStrings {t} = [t] := rfl


end StringOrder

end TypeGuardian

namespace TypeGuardian

section Unifier

/-- `set.pop()` as applied by the inferrer to singleton string sets: the
unique element (extracted through the sorted view; for a singleton the
choice of order is immaterial). -/
def finsetPop (s : Finset String) : String := (sortedStrings s).headD ""

/-- `TypeInferrer._unify_types`: drop `"Any"` members; empty ⇒ `"Any"`;
singleton ⇒ its element; a subset of `{int, float}` ⇒ numeric widening;
otherwise a `Union[...]` over the members in sorted order. -/
def unifyTypes (types : Finset String) : String :=
  if types = ∅ then "Any"
  else
    let ts := types.filter fun t => t ≠ "Any"
    if ts = ∅ then "Any"
    else if ts.card = 1 then finsetPop ts
    else if ts ⊆ {"int", "float"} then
      if "float" ∈ ts then "float" else "int"
    else "Union[" ++ String.intercalate ", " (sortedStrings ts) ++ "]"

/-- `TypeInferrer._python_type_to_typing`. -/
def pythonTypeToTyping (pyType : String) : String :=
  if pyType = "NoneType" then "None"
  else if pyType = "list" then "List[Any]"
  else if pyType = "dict" then "Dict[str, Any]"
  else if pyType = "set" then "Set[Any]"
  else if pyType = "tuple" then "Tuple[Any, ...]"
  else pyType

end Unifier

section InferencePrelims

/-- `TypeInferrer.type_cache`: a name-keyed association list threaded in
place of the Python instance dict. -/
abbrev Cache := List (String × String)

def cacheFind : Cache → String → Option String
  | [], _ => none
  | (k, t) :: c, v => if k = v then some t else cacheFind c v

def cacheInsert (c : Cache) (v t : String) : Cache := (v, t) :: c

/-- Does this assignment target match `isinstance(target, Name) and
target.id == var_name`? -/
def isNameTarget (v : String) : Expr → Bool
  | .name id _ => id = v
  | _ => false

/-- `TypeInferrer._find_assignments`: every `Assign` in the walk of `ctx`
with a `Name` target equal to `v`, in walk order. -/
def findAssignments (v : String) (ctx : Node) : List Stmt :=
  (walk ctx).filterMap fun n =>
    match n with
    | .stmtN (Stmt.assign targets value l) =>
        if targets.any (isNameTarget v) then some (Stmt.assign targets value l)
        else none
    | _ => none

/-- The `.value` of an `Assign` statement (other kinds never reach this
projection: `findAssignments` only produces `Assign` nodes). -/
def assignValueOf : Stmt → Expr
  | .assign _ v _ => v
  | _ => .name "" none

/-- `TypeInferrer._find_function`: first `FunctionDef` named `fname` in the
walk of `ctx`. -/
def findFunction (fname : String) (ctx : Node) : Option Stmt :=
  (walk ctx).findSome? fun n =>
    match n with
    | .stmtN (Stmt.functionDef n2 args body r l) =>
        if n2 = fname then some (Stmt.functionDef n2 args body r l) else none
    | _ => none

def BinOpKind.symbol : BinOpKind → String
  | .add => "+"
  | .sub => "-"
  | .mult => "*"
  | .div => "/"
  | .otherOp => "?"

mutual

/-- `ast.unparse`, restricted to the expression kinds of this model; exact
on the annotation shapes the inferrer reads back (names, attributes,
subscripts, constants, tuples), simplified renderings elsewhere. -/
def unparse : Expr → String
  | .constant v _ =>
      match v with
      | .noneV => "None"
      | .boolV true => "True"
      | .boolV false => "False"
      | .intV n => toString n
      | .floatV s => s
      | .strV s => "'" ++ s ++ "'"
      | .ellipsisV => "..."
  | .name id _ => id
  | .call f args _ =>
      unparse f ++ "(" ++ String.intercalate ", " (unparseList args) ++ ")"
  | .attr v a _ => unparse v ++ "." ++ a
  | .subscript v s _ => unparse v ++ "[" ++ unparseSlice s ++ "]"
  | .listE es _ => "[" ++ String.intercalate ", " (unparseList es) ++ "]"
  | .dictE _ vs _ =>
      "\x7b" ++ String.intercalate ", " (unparseList vs) ++ "\x7d"
  | .setE es _ => "\x7b" ++ String.intercalate ", " (unparseList es) ++ "\x7d"
  | .tupleE es _ => "(" ++ String.intercalate ", " (unparseList es) ++ ")"
  | .binOp l op r _ => unparse l ++ " " ++ op.symbol ++ " " ++ unparse r
  | .compare l _ cs _ =>
      String.intercalate " ? " (unparse l :: unparseList cs)
  | .boolOp vs _ => String.intercalate " ? " (unparseList vs)
  | .ifExp t b o _ =>
      unparse b ++ " if " ++ unparse t ++ " else " ++ unparse o

/-- A subscript slice: a tuple renders without parentheses
(`Dict[str, T]`), anything else as the expression itself. -/
def unparseSlice : Expr → String
  | .tupleE es _ => String.intercalate ", " (unparseList es)
  | e => unparse e

def unparseList : List Expr → List String
  | [] => []
  | e :: es => unparse e :: unparseList es

end

/-- The fall-through result of `_infer_expr_type`:
`'Any' if not self.strict else None`. -/
def exprFallback (strict : Bool) : Option String :=
  if strict then none else some "Any"

/-- Python truthiness of an optional string (`if ret_type:`): false for
`None` and for the empty string. -/
def strTruthy : Option String → Bool
  | some s => s ≠ ""
  | none => false

/-- The set of inferred element types with `None` discarded
(`elem_types.discard(None)`), as a deduplicated list. -/
def dedupSomes (l : List (Option String)) : List String := (l.filterMap id).dedup

end InferencePrelims

section Inference

mutual

/-- `TypeInferrer._infer_expr_type`, with the `type_cache` threaded and the
recursion bounded by `fuel` (the Python original recurses without bound on
self-referential assignment chains; every level of nesting consumes one
unit of fuel, so any fuel at least the nesting depth gives the Python
behaviour). -/
def inferExprType : Nat → Bool → Cache → Node → Expr → Option String × Cache
  | 0, _, c, _, _ => (none, c)
  | fuel + 1, strict, c, ctx, e =>
    match e with
    | .constant v _ => (some (pythonTypeToTyping v.typeName), c)
    | .name id _ => lookupVariableType fuel strict c ctx id
    | .call f _ _ =>
        match f with
        | .name fid _ =>
            if fid = "str" ∨ fid = "int" ∨ fid = "float" ∨ fid = "bool"
                ∨ fid = "list" ∨ fid = "dict" ∨ fid = "set" then
              (some (pythonTypeToTyping fid), c)
            else
              match findFunction fid ctx with
              | some (Stmt.functionDef _ _ _ (some r) _) => (some (unparse r), c)
              | _ => (exprFallback strict, c)
        | _ => (exprFallback strict, c)
    | .listE elts _ =>
        match elts with
        | [] => (some "List[Any]", c)
        | _ :: _ =>
          let p := inferExprList fuel strict c ctx elts
          match dedupSomes p.1 with
          | [t] => (some ("List[" ++ t ++ "]"), p.2)
          | _ => (some "List[Any]", p.2)
    | .dictE ks vs _ =>
        let pk := inferExprList fuel strict c ctx (ks.filterMap id)
        let pv := inferExprList fuel strict pk.2 ctx vs
        let keyT := match dedupSomes pk.1 with | [t] => t | _ => "str"
        let valT := match dedupSomes pv.1 with | [t] => t | _ => "Any"
        (some ("Dict[" ++ keyT ++ ", " ++ valT ++ "]"), pv.2)
    | .setE elts _ =>
        match elts with
        | [] => (some "Set[Any]", c)
        | _ :: _ =>
          let p := inferExprList fuel strict c ctx elts
          match dedupSomes p.1 with
          | [t] => (some ("Set[" ++ t ++ "]"), p.2)
          | _ => (some "Set[Any]", p.2)
    | .tupleE elts _ =>
        let p := inferExprList fuel strict c ctx elts
        if p.1.all strTruthy then
          (some ("Tuple[" ++ String.intercalate ", " (p.1.filterMap id) ++ "]"), p.2)
        else (some "Tuple[Any, ...]", p.2)
    | .binOp l op r _ =>
        let pl := inferExprType fuel strict c ctx l
        let pr := inferExprType fuel strict pl.2 ctx r
        match op with
        | .add | .sub | .mult | .div =>
            if pl.1 = some "int" ∨ pl.1 = some "float"
                ∨ pr.1 = some "int" ∨ pr.1 = some "float" then
              if pl.1 = some "float" ∨ pr.1 = some "float" then (some "float", pr.2)
              else (some "int", pr.2)
            else (exprFallback strict, pr.2)
        | .otherOp => (exprFallback strict, pr.2)
    | .compare _ _ _ _ => (some "bool", c)
    | .boolOp _ _ => (some "bool", c)
    | .ifExp _ b o _ =>
        let pb := inferExprType fuel strict c ctx b
        let po := inferExprType fuel strict pb.2 ctx o
        if strTruthy pb.1 && strTruthy po.1 then
          let bt := pb.1.getD ""
          let ot := po.1.getD ""
          if bt = ot then (some bt, po.2)
          else (some (unifyTypes {bt, ot}), po.2)
        else (exprFallback strict, po.2)
    | .attr _ _ _ => (exprFallback strict, c)
    | .subscript _ _ _ => (exprFallback strict, c)

/-- Inference over a list of expressions, left to right, threading the
cache (the evaluation order of Python's comprehensions). -/
def inferExprList : Nat → Bool → Cache → Node → List Expr → List (Option String) × Cache
  | _, _, c, _, [] => ([], c)
  | 0, _, c, _, _ :: _ => ([], c)
  | fuel + 1, strict, c, ctx, e :: es =>
      let p := inferExprType fuel strict c ctx e
      let q := inferExprList fuel strict p.2 ctx es
      (p.1 :: q.1, q.2)

/-- `TypeInferrer._lookup_variable_type`: the cache short-circuits; on a
miss the first assignment found in `ctx` is inferred and the result cached
when truthy. -/
def lookupVariableType : Nat → Bool → Cache → Node → String → Option String × Cache
  | 0, _, c, _, v =>
      match cacheFind c v with
      | some t => (some t, c)
      | none => (none, c)
  | fuel + 1, strict, c, ctx, v =>
      match cacheFind c v with
      | some t => (some t, c)
      | none =>
        match findAssignments v ctx with
        | a :: _ =>
            let p := inferExprType fuel strict c ctx (assignValueOf a)
            match p.1 with
            | some t => if t ≠ "" then (some t, cacheInsert p.2 v t) else (none, p.2)
            | none => (none, p.2)
        | [] => (none, c)

end


end Inference

end TypeGuardian

namespace TypeGuardian

section InferenceEntryPoints

/-- The walk of `TypeInferrer.infer_return_type`: accumulate the set of
inferred return-expression types (skipping untruthy results), the
presence of a bare `return`, and the evolved cache. -/
def collectReturnTypes (fuel : Nat) (strict : Bool) (c : Cache) (func : Stmt) :
    Finset String × Bool × Cache :=
  (walk (.stmtN func)).foldl
    (fun acc n =>
      match n with
      | .stmtN (Stmt.ret none _) => (acc.1, true, acc.2.2)
      | .stmtN (Stmt.ret (some e) _) =>
          let p := inferExprType fuel strict acc.2.2 (.stmtN func) e
          match p.1 with
          | some t =>
              if t ≠ "" then (insert t acc.1, acc.2.1, p.2)
              else (acc.1, acc.2.1, p.2)
          | none => (acc.1, acc.2.1, p.2)
      | _ => acc)
    (∅, false, c)

/-- `TypeInferrer.infer_return_type`. -/
def inferReturnType (fuel : Nat) (strict : Bool) (c : Cache) (func : Stmt) :
    Option String × Cache :=
  let r := collectReturnTypes fuel strict c func
  let types := r.1
  let bare := r.2.1
  let c2 := r.2.2
  if types = ∅ ∧ bare = false then (some "None", c2)
  else if types = ∅ then (some "None", c2)
  else if types.card = 1 then
    let t := finsetPop types
    if bare then (some ("Optional[" ++ t ++ "]"), c2) else (some t, c2)
  else
    let u := unifyTypes types
    if bare then (some ("Optional[" ++ u ++ "]"), c2) else (some u, c2)

/-- A usage pattern recorded by `TypeInferrer._analyze_param_usage`. -/
inductive UsagePattern where
  | methodCall (method : String)
  | subscriptP (keyType : Option String)
  | iteration
  | binop (op : String)

/-- `TypeInferrer._analyze_param_usage`: scan the walk of the function for
method calls, subscripts, loop-iterable uses and binary operations on the
parameter, in walk order. -/
def analyzeParamUsage (fuel : Nat) (strict : Bool) (c : Cache) (p : String)
    (func : Stmt) : List UsagePattern × Cache :=
  (walk (.stmtN func)).foldl
    (fun acc n =>
      match n with
      | .exprN (Expr.call (Expr.attr (Expr.name id _) m _) _ _) =>
          if id = p then (acc.1 ++ [.methodCall m], acc.2) else acc
      | .exprN (Expr.subscript (Expr.name id _) sl _) =>
          if id = p then
            let q := inferExprType fuel strict acc.2 (.stmtN func) sl
            (acc.1 ++ [.subscriptP q.1], q.2)
          else acc
      | .stmtN (Stmt.forS _ (Expr.name id _) _ _ _) =>
          if id = p then (acc.1 ++ [.iteration], acc.2) else acc
      | .exprN (Expr.binOp (Expr.name id _) op _ _) =>
          if id = p then (acc.1 ++ [.binop op.opName], acc.2) else acc
      | _ => acc)
    ([], c)

/-- The fixed pattern → type table inside `_infer_from_patterns`: the type
a single usage pattern is mapped to, `none` when the pattern has no table
entry (the loop then falls through to the next pattern). -/
def patternTableType : UsagePattern → Option String
  | .methodCall m =>
      if m = "lower" ∨ m = "upper" ∨ m = "strip" ∨ m = "split" ∨ m = "replace" then
        some "str"
      else if m = "append" ∨ m = "extend" ∨ m = "pop" ∨ m = "remove" then
        some "List[Any]"
      else if m = "get" ∨ m = "keys" ∨ m = "values" ∨ m = "items" then
        some "Dict[str, Any]"
      else none
  | .subscriptP k =>
      if k = some "int" then some "List[Any]"
      else if k = some "str" then some "Dict[str, Any]"
      else none
  | .iteration => some "Iterable[Any]"
  | .binop op =>
      if op = "Add" ∨ op = "Sub" ∨ op = "Mult" ∨ op = "Div" then some "int"
      else none

/-- `TypeInferrer._infer_from_patterns`: first pattern with a table entry
wins; exhausted ⇒ `'Any' if not strict else None`. -/
def inferFromPatterns (strict : Bool) : List UsagePattern → Option String
  | [] => if strict then none else some "Any"
  | pat :: rest =>
      match patternTableType pat with
      | some t => some t
      | none => inferFromPatterns strict rest

/-- `TypeInferrer.infer_param_type`. -/
def inferParamType (fuel : Nat) (strict : Bool) (c : Cache) (p : String)
    (func : Stmt) : Option String × Cache :=
  let q := analyzeParamUsage fuel strict c p func
  match q.1 with
  | [] => ((if strict then none else some "Any"), q.2)
  | pat :: rest => (inferFromPatterns strict (pat :: rest), q.2)

/-- The all-assignments scan of `TypeInferrer.infer_variable_type` (its
second phase): unify the truthy inferred types of every assignment to `v`
in the tree. -/
def inferVariableTypeAll (fuel : Nat) (strict : Bool) (c : Cache) (v : String)
    (tree : Node) : Option String × Cache :=
  let r := (findAssignments v tree).foldl
    (fun acc a =>
      let p := inferExprType fuel strict acc.2 tree (assignValueOf a)
      match p.1 with
      | some t => if t ≠ "" then (insert t acc.1, p.2) else (acc.1, p.2)
      | none => (acc.1, p.2))
    ((∅ : Finset String), c)
  if r.1 = ∅ then ((if strict then none else some "Any"), r.2)
  else (some (unifyTypes r.1), r.2)

/-- `TypeInferrer.infer_variable_type`: prefer the immediate assignment's
value when it infers to a truthy non-`Any` type, else unify every
assignment to the variable in the whole tree. -/
def inferVariableType (fuel : Nat) (strict : Bool) (c : Cache) (v : String)
    (context : Node) (tree : Node) : Option String × Cache :=
  match context with
  | .stmtN (Stmt.assign _ value _) =>
      let p := inferExprType fuel strict c tree value
      match p.1 with
      | some t =>
          if t ≠ "" ∧ t ≠ "Any" then (some t, p.2)
          else inferVariableTypeAll fuel strict p.2 v tree
      | none => inferVariableTypeAll fuel strict p.2 v tree
  | _ => inferVariableTypeAll fuel strict c v tree

end InferenceEntryPoints

section TypeStrParsing

/-- Tokens of the type-annotation expression sublanguage accepted by
`ast.parse(type_str, mode='eval')` on the strings the fixers build. -/
inductive TypeTok where
  | identT (s : String)
  | lbrack
  | rbrack
  | comma
  | ellipsisT

def isIdentChar (ch : Char) : Bool :=
  ch.isAlphanum || ch = '_'

/-- Tokenize a type string; `none` on any character outside the
sublanguage (modelling `SyntaxError`).  Fuelled: every step consumes at
least one character, so `length + 1` fuel always suffices. -/
def typeTokenizeAux : Nat → List Char → Option (List TypeTok)
  | 0, _ => none
  | _ + 1, [] => some []
  | fuel + 1, ch :: rest =>
      if ch = ' ' then typeTokenizeAux fuel rest
      else if ch = '[' then (typeTokenizeAux fuel rest).map (TypeTok.lbrack :: ·)
      else if ch = ']' then (typeTokenizeAux fuel rest).map (TypeTok.rbrack :: ·)
      else if ch = ',' then (typeTokenizeAux fuel rest).map (TypeTok.comma :: ·)
      else if ch = '.' then
        match rest with
        | '.' :: '.' :: rest2 => (typeTokenizeAux fuel rest2).map (TypeTok.ellipsisT :: ·)
        | _ => none
      else if isIdentChar ch then
        let run := (ch :: rest).takeWhile isIdentChar
        let rest2 := (ch :: rest).dropWhile isIdentChar
        (typeTokenizeAux fuel rest2).map (TypeTok.identT (String.mk run) :: ·)
      else none

def typeTokenize (cs : List Char) : Option (List TypeTok) :=
  typeTokenizeAux (cs.length + 1) cs

mutual

/-- One type expression: an identifier, optionally subscripted by a
bracketed argument list (a single argument becomes the slice itself, two or
more become a tuple slice, as `ast.parse` produces). -/
def parseTypeExpr (fuel : Nat) (toks : List TypeTok) :
    Option (Expr × List TypeTok) :=
  match fuel, toks with
  | fuel + 1, TypeTok.identT s :: rest =>
      (match rest with
        | TypeTok.lbrack :: rest2 =>
            match parseTypeArgs fuel rest2 with
            | some (args, TypeTok.rbrack :: rest3) =>
                let slice := match args with
                  | [a] => a
                  | _ => Expr.tupleE args none
                some (Expr.subscript (Expr.name s none) slice none, rest3)
            | _ => none
        | _ => some (Expr.name s none, rest))
  | _ + 1, TypeTok.ellipsisT :: rest =>
      some (Expr.constant ConstVal.ellipsisV none, rest)
  | _, _ => none

/-- A comma-separated argument list inside brackets. -/
def parseTypeArgs (fuel : Nat) (toks : List TypeTok) :
    Option (List Expr × List TypeTok) :=
  match fuel with
  | 0 => none
  | fuel + 1 =>
      match parseTypeExpr fuel toks with
      | some (e, TypeTok.comma :: rest) =>
          match parseTypeArgs fuel rest with
          | some (es, rest2) => some (e :: es, rest2)
          | none => none
      | some (e, rest) => some ([e], rest)
      | none => none

end

/-- `_type_str_to_ast` (identical in `missing_hints.py`, `collection_fixer.py`
and `type_inferrer.py`): parse the type string as an expression, falling
back to the bare name `Any` on a syntax error.  Parsed nodes carry no
location, as the fixers never read one off them. -/
def typeStrToAst (typeStr : String) : Expr :=
  match typeTokenize typeStr.toList with
  | none => Expr.name "Any" none
  | some toks =>
      match parseTypeExpr (toks.length + 1) toks with
      | some (e, []) => e
      | _ => Expr.name "Any" none

end TypeStrParsing

end TypeGuardian

namespace TypeGuardian

section Locations

def exprLocOf : Expr → Option Loc
  | .constant _ l => l | .name _ l => l | .call _ _ l => l
  | .attr _ _ l => l | .subscript _ _ l => l | .listE _ l => l
  | .dictE _ _ l => l | .setE _ l => l | .tupleE _ l => l
  | .binOp _ _ _ l => l | .compare _ _ _ l => l | .boolOp _ l => l
  | .ifExp _ _ _ l => l

def stmtLocOf : Stmt → Option Loc
  | .functionDef _ _ _ _ l => l | .ret _ l => l | .assign _ _ l => l
  | .annAssign _ _ _ _ l => l | .ifS _ _ _ l => l | .forS _ _ _ _ l => l
  | .exprS _ l => l | .importS _ l => l | .importFrom _ _ _ l => l

/-- `getattr(node, 'lineno', ...)` at the `Node` level; the module root has
no location attributes. -/
def nodeLocOf : Node → Option Loc
  | .moduleN _ => none
  | .stmtN s => stmtLocOf s
  | .exprN e => exprLocOf e
  | .argN a => a.loc

def exprSetLoc (l : Option Loc) : Expr → Expr
  | .constant v _ => .constant v l
  | .name i _ => .name i l
  | .call f a _ => .call f a l
  | .attr v a _ => .attr v a l
  | .subscript v s _ => .subscript v s l
  | .listE es _ => .listE es l
  | .dictE ks vs _ => .dictE ks vs l
  | .setE es _ => .setE es l
  | .tupleE es _ => .tupleE es l
  | .binOp a o b _ => .binOp a o b l
  | .compare a os cs _ => .compare a os cs l
  | .boolOp vs _ => .boolOp vs l
  | .ifExp t b o _ => .ifExp t b o l

def stmtSetLoc (l : Option Loc) : Stmt → Stmt
  | .functionDef n a b r _ => .functionDef n a b r l
  | .ret v _ => .ret v l
  | .assign ts v _ => .assign ts v l
  | .annAssign t a v s _ => .annAssign t a v s l
  | .ifS t b o _ => .ifS t b o l
  | .forS t i b o _ => .forS t i b o l
  | .exprS v _ => .exprS v l
  | .importS ns _ => .importS ns l
  | .importFrom m ns lv _ => .importFrom m ns lv l

def nodeSetLoc (l : Option Loc) : Node → Node
  | .moduleN m => .moduleN m
  | .stmtN s => .stmtN (stmtSetLoc l s)
  | .exprN e => .exprN (exprSetLoc l e)
  | .argN a => .argN { a with loc := l }

/-- `ast.copy_location(new, old)`: copy `old`'s location onto `new` when
`old` carries one; otherwise `new` is left as is. -/
def copyLocation (new old : Node) : Node :=
  match nodeLocOf old with
  | some l => nodeSetLoc (some l) new
  | none => new

end Locations

section ReplaceNode

/-- Prepare the node to store in a matched slot: apply `ast.copy_location`
when `withLoc` is set (the `optional_fixer.py`/`collection_fixer.py`
variant of `_replace_node` calls it, the `missing_hints.py`/
`generic_fixer.py` variant does not). -/
def replacementFor (withLoc : Bool) (old new : Node) : Node :=
  if withLoc then copyLocation new old else new

/-- The replacement stored into an expression slot; a kind-mismatched
replacement (which would make the tree ill-kinded) leaves the slot as is. -/
def replacementExpr (withLoc : Bool) (old new : Node) (slot : Expr) : Expr :=
  match replacementFor withLoc old new with
  | .exprN e2 => e2
  | _ => slot

def replacementStmt (withLoc : Bool) (old new : Node) (slot : Stmt) : Stmt :=
  match replacementFor withLoc old new with
  | .stmtN s2 => s2
  | _ => slot

def replacementArg (withLoc : Bool) (old new : Node) (slot : Arg) : Arg :=
  match replacementFor withLoc old new with
  | .argN a2 => a2
  | _ => slot

mutual

/-- Check one expression child slot: a slot holding `old` (by the node
identity model) is overwritten with the prepared replacement; otherwise the
search descends into the child's own slots, in `_fields` order.  It stops
at the first match, as the Python `_replace_node` returns after its first
assignment. -/
def replSlotE (withLoc : Bool) (old new : Node) (e : Expr) : Expr × Bool :=
  if beqNode (.exprN e) old then (replacementExpr withLoc old new e, true)
  else
    match e with
    | .constant v l => (.constant v l, false)
    | .name i l => (.name i l, false)
    | .call f args l =>
        let p := replSlotE withLoc old new f
        if p.2 then (.call p.1 args l, true)
        else
          let q := replSlotEList withLoc old new args
          (.call f q.1 l, q.2)
    | .attr v a l =>
        let p := replSlotE withLoc old new v
        (.attr p.1 a l, p.2)
    | .subscript v sl l =>
        let p := replSlotE withLoc old new v
        if p.2 then (.subscript p.1 sl l, true)
        else
          let q := replSlotE withLoc old new sl
          (.subscript v q.1 l, q.2)
    | .listE es l =>
        let q := replSlotEList withLoc old new es
        (.listE q.1 l, q.2)
    | .dictE ks vs l =>
        let p := replSlotOptEList withLoc old new ks
        if p.2 then (.dictE p.1 vs l, true)
        else
          let q := replSlotEList withLoc old new vs
          (.dictE ks q.1 l, q.2)
    | .setE es l =>
        let q := replSlotEList withLoc old new es
        (.setE q.1 l, q.2)
    | .tupleE es l =>
        let q := replSlotEList withLoc old new es
        (.tupleE q.1 l, q.2)
    | .binOp a o b l =>
        let p := replSlotE withLoc old new a
        if p.2 then (.binOp p.1 o b l, true)
        else
          let q := replSlotE withLoc old new b
          (.binOp a o q.1 l, q.2)
    | .compare a os cs l =>
        let p := replSlotE withLoc old new a
        if p.2 then (.compare p.1 os cs l, true)
        else
          let q := replSlotEList withLoc old new cs
          (.compare a os q.1 l, q.2)
    | .boolOp vs l =>
        let q := replSlotEList withLoc old new vs
        (.boolOp q.1 l, q.2)
    | .ifExp t b o l =>
        let p := replSlotE withLoc old new t
        if p.2 then (.ifExp p.1 b o l, true)
        else
          let q := replSlotE withLoc old new b
          if q.2 then (.ifExp t q.1 o l, true)
          else
            let r := replSlotE withLoc old new o
            (.ifExp t b r.1 l, r.2)

def replSlotEList (withLoc : Bool) (old new : Node) : List Expr → List Expr × Bool
  | [] => ([], false)
  | e :: es =>
      let p := replSlotE withLoc old new e
      if p.2 then (p.1 :: es, true)
      else
        let q := replSlotEList withLoc old new es
        (e :: q.1, q.2)

def replSlotOptEList (withLoc : Bool) (old new : Node) :
    List (Option Expr) → List (Option Expr) × Bool
  | [] => ([], false)
  | none :: es =>
      let q := replSlotOptEList withLoc old new es
      (none :: q.1, q.2)
  | some e :: es =>
      let p := replSlotE withLoc old new e
      if p.2 then (some p.1 :: es, true)
      else
        let q := replSlotOptEList withLoc old new es
        (some e :: q.1, q.2)

end

def replSlotOptE (withLoc : Bool) (old new : Node) : Option Expr → Option Expr × Bool
  | none => (none, false)
  | some e =>
      let p := replSlotE withLoc old new e
      (some p.1, p.2)

/-- Check one `ast.arg` list element: the element itself is a slot, and its
annotation is a child slot. -/
def replSlotArg (withLoc : Bool) (old new : Node) (a : Arg) : Arg × Bool :=
  if beqNode (.argN a) old then (replacementArg withLoc old new a, true)
  else
    let p := replSlotOptE withLoc old new a.annot
    ({ a with annot := p.1 }, p.2)

def replSlotArgList (withLoc : Bool) (old new : Node) : List Arg → List Arg × Bool
  | [] => ([], false)
  | a :: as =>
      let p := replSlotArg withLoc old new a
      if p.2 then (p.1 :: as, true)
      else
        let q := replSlotArgList withLoc old new as
        (a :: q.1, q.2)

mutual

/-- Check one statement child slot, then descend into its slots. -/
def replSlotS (withLoc : Bool) (old new : Node) (s : Stmt) : Stmt × Bool :=
  if beqNode (.stmtN s) old then (replacementStmt withLoc old new s, true)
  else
    match s with
    | .functionDef n args body r l =>
        let p := replSlotArgList withLoc old new args
        if p.2 then (.functionDef n p.1 body r l, true)
        else
          let q := replSlotSList withLoc old new body
          if q.2 then (.functionDef n args q.1 r l, true)
          else
            let t := replSlotOptE withLoc old new r
            (.functionDef n args body t.1 l, t.2)
    | .ret v l =>
        let p := replSlotOptE withLoc old new v
        (.ret p.1 l, p.2)
    | .assign ts v l =>
        let p := replSlotEList withLoc old new ts
        if p.2 then (.assign p.1 v l, true)
        else
          let q := replSlotE withLoc old new v
          (.assign ts q.1 l, q.2)
    | .annAssign t a v sm l =>
        let p := replSlotE withLoc old new t
        if p.2 then (.annAssign p.1 a v sm l, true)
        else
          let q := replSlotE withLoc old new a
          if q.2 then (.annAssign t q.1 v sm l, true)
          else
            let r := replSlotOptE withLoc old new v
            (.annAssign t a r.1 sm l, r.2)
    | .ifS t b o l =>
        let p := replSlotE withLoc old new t
        if p.2 then (.ifS p.1 b o l, true)
        else
          let q := replSlotSList withLoc old new b
          if q.2 then (.ifS t q.1 o l, true)
          else
            let r := replSlotSList withLoc old new o
            (.ifS t b r.1 l, r.2)
    | .forS t i b o l =>
        let p := replSlotE withLoc old new t
        if p.2 then (.forS p.1 i b o l, true)
        else
          let q := replSlotE withLoc old new i
          if q.2 then (.forS t q.1 b o l, true)
          else
            let r := replSlotSList withLoc old new b
            if r.2 then (.forS t i r.1 o l, true)
            else
              let u := replSlotSList withLoc old new o
              (.forS t i b u.1 l, u.2)
    | .exprS v l =>
        let p := replSlotE withLoc old new v
        (.exprS p.1 l, p.2)
    | .importS ns l => (.importS ns l, false)
    | .importFrom m ns lv l => (.importFrom m ns lv l, false)

def replSlotSList (withLoc : Bool) (old new : Node) : List Stmt → List Stmt × Bool
  | [] => ([], false)
  | s :: ss =>
      let p := replSlotS withLoc old new s
      if p.2 then (p.1 :: ss, true)
      else
        let q := replSlotSList withLoc old new ss
        (s :: q.1, q.2)

end

/-- The `_replace_node` primitive: find the structural slot (child-list
element or singular field) holding `old` and overwrite it with `new`,
silently doing nothing when `old` is absent.  The traversal stops at the
first matching slot; as long as the tree holds at most one occurrence of
`old` this coincides with Python's scan over `ast.walk` parents. -/
def replaceNodeAux (withLoc : Bool) (tree : Module) (old new : Node) :
    Module × Bool :=
  let p := replSlotSList withLoc old new tree.body
  ({ body := p.1 }, p.2)

/-- `OptionalFixer._replace_node` and `CollectionFixer._replace_node`:
overwrite the slot and `ast.copy_location(new_node, old_node)`. -/
def replaceNodeLoc (tree : Module) (old new : Node) : Module × Bool :=
  replaceNodeAux true tree old new

/-- `MissingHintsFixer._replace_node` and `GenericFixer._replace_node`:
overwrite the slot; these variants perform no `copy_location`. -/
def replaceNodeNoLoc (tree : Module) (old new : Node) : Module × Bool :=
  replaceNodeAux false tree old new

end ReplaceNode

end TypeGuardian

namespace TypeGuardian

section Fixers

/-- A parsed diagnostic record, restricted to the fields the fixers read:
`error['category']`, `error['line']`, `error['message']`,
`error.get('context', {}).get('name')`. -/
structure Error where
  category : String
  line : Nat
  message : String
  contextName : Option String

/-- `OptionalFixer._checks_none`: does `test` compare the name `v` against
`None` with `is`/`is not`? -/
def checksNone (test : Expr) (v : String) : Bool :=
  match test with
  | .compare left ops comps _ =>
      (match left with | .name id _ => id = v | _ => false)
      && ops.any (fun o => match o with | .isOp => true | .isNotOp => true | _ => false)
      && comps.any (fun c => match c with | .constant .noneV _ => true | _ => false)
  | _ => false

/-- `OptionalFixer._node_in_body`: does the walk of some statement of
`body` contain `node`? -/
def nodeInBody (node : Expr) (body : List Stmt) : Bool :=
  body.any fun item => (walk (.stmtN item)).any fun child => beqNode child (.exprN node)

/-- `OptionalFixer._is_already_guarded`: some `If` statement of the tree
tests `v` against `None` and holds `node` in its body. -/
def isAlreadyGuarded (tree : Module) (node : Expr) (v : String) : Bool :=
  (walk (.moduleN tree)).any fun p =>
    match p with
    | .stmtN (Stmt.ifS test body _ _) => checksNone test v && nodeInBody node body
    | _ => false

/-- `OptionalFixer._fix_optional_attribute_access`: wrap the attribute
access in `x.a if x is not None else None` unless its receiver is not a
bare name or the access is already guarded. -/
def fixOptionalAttributeAccess (node : Expr) (tree : Module) : Module × Bool :=
  match node with
  | .attr value attrName l =>
      match value with
      | .name varName vl =>
          if isAlreadyGuarded tree (.attr (.name varName vl) attrName l) varName then
            (tree, false)
          else
            let noneCheck : Expr :=
              .compare (.name varName none) [.isNotOp] [.constant .noneV none] none
            let conditional : Expr :=
              .ifExp noneCheck (.attr (.name varName vl) attrName l)
                (.constant .noneV none) none
            ((replaceNodeLoc tree (.exprN (.attr (.name varName vl) attrName l))
                (.exprN conditional)).1, true)
      | _ => (tree, false)
  | _ => (tree, false)

/-- `OptionalFixer.fix`: locate the node at the diagnostic line; attribute
accesses are guarded directly, calls through their attribute callee. -/
def optionalFixerFix (err : Error) (tree : Module) : Module × Bool :=
  match findNodeAtLine (.moduleN tree) err.line with
  | none => (tree, false)
  | some (Node.exprN (Expr.attr value attrName l)) =>
      fixOptionalAttributeAccess (.attr value attrName l) tree
  | some (Node.exprN (Expr.call f _ _)) =>
      (match f with
       | .attr _ _ _ => fixOptionalAttributeAccess f tree
       | _ => (tree, false))
  | some _ => (tree, false)

/-- `OptionalFixer.can_fix`. -/
def optionalFixerCanFix (err : Error) : Bool := err.category = "optional_none"

/-- `'return type' in error['message'].lower()`-style containment test. -/
def strContainsSub (sub s : String) : Bool :=
  s.toList.tails.any fun t => sub.toList.isPrefixOf t

/-- The parameter loop of `MissingHintsFixer._fix_function_hints`: fill
each unannotated parameter from `infer_param_type`, re-walking the function
in its current, partially annotated state (the Python loop mutates the
`FunctionDef` in place while iterating). -/
def fillParamAnnots (fuel : Nat) (strict : Bool) (c : Cache) (fname : String)
    (done : List Arg) (todo : List Arg) (body : List Stmt) (r : Option Expr)
    (l : Option Loc) (modified : Bool) : List Arg × Cache × Bool :=
  match todo with
  | [] => (done, c, modified)
  | a :: rest =>
      match a.annot with
      | some _ => fillParamAnnots fuel strict c fname (done ++ [a]) rest body r l modified
      | none =>
          let ctxNode := Stmt.functionDef fname (done ++ a :: rest) body r l
          let p := inferParamType fuel strict c a.argName ctxNode
          if strTruthy p.1 then
            let a2 : Arg := { a with annot := some (typeStrToAst (p.1.getD "")) }
            fillParamAnnots fuel strict p.2 fname (done ++ [a2]) rest body r l true
          else fillParamAnnots fuel strict p.2 fname (done ++ [a]) rest body r l modified

/-- `MissingHintsFixer._fix_function_hints`: fill a missing return
annotation when the message mentions a return type, then fill missing
parameter annotations; the function node is updated in place in the tree. -/
def missingHintsFixFunction (fuel : Nat) (strict : Bool) (c : Cache)
    (fname : String) (args : List Arg) (body : List Stmt) (r : Option Expr)
    (l : Option Loc) (tree : Module) (err : Error) : Module × Bool × Cache :=
  let retStep : Option Expr × Cache × Bool :=
    match r with
    | some e => (some e, c, false)
    | none =>
        if strContainsSub "return type" err.message.toLower then
          let p := inferReturnType fuel strict c (.functionDef fname args body none l)
          if strTruthy p.1 then (some (typeStrToAst (p.1.getD "")), p.2, true)
          else (none, p.2, false)
        else (none, c, false)
  let r2 := retStep.1
  let q := fillParamAnnots fuel strict retStep.2.1 fname [] args body r2 l retStep.2.2
  let node2 := Stmt.functionDef fname q.1 body r2 l
  let tree2 :=
    (replaceNodeNoLoc tree (.stmtN (.functionDef fname args body r l)) (.stmtN node2)).1
  (tree2, q.2.2, q.2.1)

/-- `MissingHintsFixer._fix_variable_hint`: promote a single-target name
assignment to an annotated assignment with the inferred variable type. -/
def missingHintsFixVariable (fuel : Nat) (strict : Bool) (c : Cache)
    (targets : List Expr) (value : Expr) (l : Option Loc) (tree : Module) :
    Module × Bool × Cache :=
  match targets with
  | [t] =>
      match t with
      | .name varName vl =>
          let p := inferVariableType fuel strict c varName
            (.stmtN (.assign [.name varName vl] value l)) (.moduleN tree)
          if strTruthy p.1 then
            let annAssignNode : Stmt :=
              .annAssign (.name varName vl) (typeStrToAst (p.1.getD ""))
                (some value) 1 none
            ((replaceNodeNoLoc tree (.stmtN (.assign [.name varName vl] value l))
                (.stmtN annAssignNode)).1, true, p.2)
          else (tree, false, p.2)
      | _ => (tree, false, c)
  | _ => (tree, false, c)

/-- `MissingHintsFixer.fix`: dispatch on the node found at the diagnostic
line.  The fixer owns one `TypeInferrer`, so the cache is threaded through
and out of every call. -/
def missingHintsFix (fuel : Nat) (strict : Bool) (c : Cache) (err : Error)
    (tree : Module) : Module × Bool × Cache :=
  match findNodeAtLine (.moduleN tree) err.line with
  | none => (tree, false, c)
  | some (Node.stmtN (Stmt.functionDef f a b r l)) =>
      missingHintsFixFunction fuel strict c f a b r l tree err
  | some (Node.stmtN (Stmt.assign ts v l)) =>
      missingHintsFixVariable fuel strict c ts v l tree
  | some _ => (tree, false, c)

/-- `MissingHintsFixer.can_fix`. -/
def missingHintsCanFix (err : Error) : Bool := err.category = "missing_type_hint"

/-- `CollectionFixer._get_expr_type`: the raw runtime type name of a
constant, the callee name of a constructor-style call, nothing otherwise. -/
def getExprType : Expr → Option String
  | .constant v _ => some v.typeName
  | .name _ _ => none
  | .call f _ _ => (match f with | .name fid _ => some fid | _ => none)
  | _ => none

/-- The element-type set of a list/set literal's elements
(`CollectionFixer._infer_from_literal`). -/
def literalElemTypes (elts : List Expr) : Option String :=
  match elts with
  | [] => none
  | _ :: _ =>
      let types := (elts.filterMap getExprType).toFinset
      if types.card = 1 then some (finsetPop types)
      else if 1 < types.card then
        some ("Union[" ++ String.intercalate ", " (sortedStrings types) ++ "]")
      else none

/-- `CollectionFixer._infer_from_literal`. -/
def inferFromLiteral : Expr → Option String
  | .listE elts _ => literalElemTypes elts
  | .setE elts _ => literalElemTypes elts
  | _ => none

/-- `CollectionFixer._infer_dict_types`. -/
def inferDictTypes (keys : List (Option Expr)) (values : List Expr) :
    Option String × Option String :=
  match keys with
  | [] => (none, none)
  | _ :: _ =>
      let keyTypes := ((keys.filterMap id).filterMap getExprType).toFinset
      let valTypes := (values.filterMap getExprType).toFinset
      (some (if keyTypes.card = 1 then finsetPop keyTypes else "str"),
       some (if valTypes.card = 1 then finsetPop valTypes else "Any"))

/-- `CollectionFixer._infer_from_usage`: the set of `_get_expr_type`s of
first arguments of `v.append(...)` / `v.add(...)` calls anywhere in the
tree. -/
def appendedTypes (tree : Module) (v : String) : Finset String :=
  (walk (.moduleN tree)).foldl
    (fun acc n =>
      match n with
      | .exprN (Expr.call (Expr.attr (Expr.name id _) m _) (arg0 :: _) _) =>
          if id = v ∧ (m = "append" ∨ m = "add") then
            match getExprType arg0 with
            | some t => insert t acc
            | none => acc
          else acc
      | _ => acc)
    (∅ : Finset String)

/-- `CollectionFixer._infer_from_usage`. -/
def inferFromUsage (tree : Module) (v : String) : Option String :=
  let appended := appendedTypes tree v
  if appended.card = 1 then some ("List[" ++ finsetPop appended ++ "]")
  else if 1 < appended.card then
    some ("List[Union[" ++ String.intercalate ", " (sortedStrings appended) ++ "]]")
  else none

/-- `CollectionFixer._infer_collection_type`: literal initializer first,
then append/add usage, then an `Any`-parametrized default keyed on the
initializer's container kind. -/
def inferCollectionType (node : Stmt) (tree : Module) (v : String) : Option String :=
  match node with
  | .assign _ value _ =>
      let fromLit : Option String :=
        match value with
        | .listE _ _ => (inferFromLiteral value).map (fun t => "List[" ++ t ++ "]")
        | .setE _ _ => (inferFromLiteral value).map (fun t => "Set[" ++ t ++ "]")
        | .dictE ks vs _ =>
            (match inferDictTypes ks vs with
             | (some kt, some vt) => some ("Dict[" ++ kt ++ ", " ++ vt ++ "]")
             | _ => none)
        | _ => none
      match fromLit with
      | some t => some t
      | none =>
          match inferFromUsage tree v with
          | some u => some u
          | none =>
              match value with
              | .listE _ _ => some "List[Any]"
              | .dictE _ _ _ => some "Dict[str, Any]"
              | .setE _ _ => some "Set[Any]"
              | _ => none
  | _ => none

/-- `CollectionFixer._find_assignment`: first `Assign` in the walk at the
diagnostic line with a `Name` target equal to `v`. -/
def findAssignmentAtLine (tree : Module) (v : String) (line : Nat) : Option Stmt :=
  (walk (.moduleN tree)).findSome? fun n =>
    match n with
    | .stmtN (Stmt.assign targets value l) =>
        if l.map Loc.line = some line ∧ targets.any (isNameTarget v) then
          some (Stmt.assign targets value l)
        else none
    | _ => none

/-- `CollectionFixer.fix`. -/
def collectionFixerFix (err : Error) (tree : Module) : Module × Bool :=
  match err.contextName with
  | none => (tree, false)
  | some v =>
      if v = "" then (tree, false)
      else
        match findAssignmentAtLine tree v err.line with
        | none => (tree, false)
        | some (Stmt.assign targets value l) =>
            (match inferCollectionType (.assign targets value l) tree v with
             | none => (tree, false)
             | some ct =>
                 let target := targets.headD (.name "" none)
                 let annAssignNode : Stmt :=
                   .annAssign target (typeStrToAst ct) (some value) 1 none
                 ((replaceNodeLoc tree (.stmtN (.assign targets value l))
                     (.stmtN annAssignNode)).1, true))
        | some _ => (tree, false)

/-- `CollectionFixer.can_fix`. -/
def collectionFixerCanFix (err : Error) : Bool := err.category = "collection_type"

end Fixers

section ImportFixer

/-- `ImportFixer.TYPING_IMPORTS`. -/
def typingImports : Finset String :=
  {"List", "Dict", "Set", "Tuple", "Optional", "Union", "Any",
   "TypeVar", "Generic", "Protocol", "Callable", "Iterable",
   "Sequence", "Mapping", "Type", "ClassVar", "Final"}

/-- The inner walk of `_find_needed_imports` from one anchor node: collect
names and subscripted names drawn from the typing vocabulary. -/
def scanTypingNames (root : Node) (acc : Finset String) : Finset String :=
  (walk root).foldl
    (fun a n =>
      match n with
      | .exprN (Expr.name id _) => if id ∈ typingImports then insert id a else a
      | .exprN (Expr.subscript (Expr.name id _) _ _) =>
          if id ∈ typingImports then insert id a else a
      | _ => a)
    acc

/-- Is this node one of the anchors `_find_needed_imports` scans from
(`isinstance(node, (ast.FunctionDef, ast.arg, ast.AnnAssign))`)? -/
def isAnnotAnchor : Node → Bool
  | .stmtN (.functionDef _ _ _ _ _) => true
  | .stmtN (.annAssign _ _ _ _ _) => true
  | .argN _ => true
  | _ => false

/-- Is this statement an assignment whose value is a `TypeVar(...)`
constructor call? -/
def isTypeVarAssign : Stmt → Bool
  | .assign _ (Expr.call (Expr.name f _) _ _) _ => f = "TypeVar"
  | _ => false

/-- `ImportFixer._find_needed_imports`: typing names appearing under
function definitions, parameters or annotated assignments, plus `TypeVar`
whenever a `TypeVar(...)` constructor assignment exists. -/
def findNeededImports (tree : Module) : Finset String :=
  (walk (.moduleN tree)).foldl
    (fun acc n =>
      let acc1 := if isAnnotAnchor n then scanTypingNames n acc else acc
      match n with
      | .stmtN s => if isTypeVarAssign s then insert "TypeVar" acc1 else acc1
      | _ => acc1)
    (∅ : Finset String)

/-- `ImportFixer._find_existing_imports`: scan the top-level body; a
`from typing import *` or an `import typing` makes the whole vocabulary
available. -/
def findExistingImportsAux (acc : Finset String) : List Stmt → Finset String
  | [] => acc
  | s :: rest =>
      match s with
      | .importFrom m names _ _ =>
          if m = some "typing" then
            if names.any (fun a => a.aliasName = "*") then typingImports
            else
              findExistingImportsAux
                (names.foldl (fun x a => insert a.aliasName x) acc) rest
          else findExistingImportsAux acc rest
      | .importS names _ =>
          if names.any (fun a => a.aliasName = "typing") then typingImports
          else findExistingImportsAux acc rest
      | _ => findExistingImportsAux acc rest

def findExistingImports (tree : Module) : Finset String :=
  findExistingImportsAux ∅ tree.body

/-- `ImportFixer._find_import_position`: after a module docstring and any
leading imports. -/
def findImportPosition (body : List Stmt) : Nat :=
  let start : Nat :=
    match body with
    | (Stmt.exprS (Expr.constant _ _) _) :: _ => 1
    | _ => 0
  match (body.drop start).findIdx? (fun s =>
      match s with
      | .importS _ _ => false
      | .importFrom _ _ _ _ => false
      | _ => true) with
  | some i => start + i
  | none => body.length

/-- Extend the first `from typing import ...` statement with the sorted
missing names, when one exists. -/
def extendFirstTypingImport : List Stmt → Finset String → Option (List Stmt)
  | [], _ => none
  | s :: rest, imports =>
      match s with
      | .importFrom m names lv l =>
          if m = some "typing" then
            let existingNames := (names.map (·.aliasName)).toFinset
            let newNames := imports \ existingNames
            some (.importFrom m
              (names ++ (sortedStrings newNames).map fun n =>
                { aliasName := n, asname := none }) lv l :: rest)
          else (extendFirstTypingImport rest imports).map (.importFrom m names lv l :: ·)
      | s2 => (extendFirstTypingImport rest imports).map (s2 :: ·)

/-- `ImportFixer._add_import_statement`: extend an existing typing import
or insert one new consolidated statement at the import position. -/
def addImportStatement (tree : Module) (imports : Finset String) : Module :=
  let insertPos := findImportPosition tree.body
  match extendFirstTypingImport tree.body imports with
  | some body2 => { body := body2 }
  | none =>
      let importNode : Stmt :=
        .importFrom (some "typing")
          ((sortedStrings imports).map fun n => { aliasName := n, asname := none })
          0 none
      { body := tree.body.take insertPos ++ importNode :: tree.body.drop insertPos }

/-- `ImportFixer.add_missing_imports`. -/
def addMissingImports (tree : Module) : Module × Nat :=
  let needed := findNeededImports tree
  let existing := findExistingImports tree
  let missing := needed \ existing
  if missing = ∅ then (tree, 0)
  else (addImportStatement tree missing, missing.card)

end ImportFixer

section Runner

/-- The `missing_type_hint` arm of the per-file loop of
`TypeGuardianRunner.auto_fix_all`: apply the (single) hint fixer to each
matching diagnostic of the file, threading its tree, fix count and the
fixer's cache. -/
def processFileHints (fuel : Nat) (strict : Bool) (c : Cache) (tree : Module)
    (errs : List Error) : Module × Nat × Cache :=
  errs.foldl
    (fun acc err =>
      if missingHintsCanFix err then
        let r := missingHintsFix fuel strict acc.2.2 err acc.1
        (r.1, acc.2.1 + (if r.2.1 then 1 else 0), r.2.2)
      else acc)
    (tree, 0, c)

/-- The file loop of `auto_fix_all`, restricted to the hint fixer: one
`MissingHintsFixer` — hence one `TypeInferrer` and one `type_cache` — is
constructed before the loop and reused for every file of the batch. -/
def runnerHintsBatch (fuel : Nat) (strict : Bool) (c : Cache)
    (files : List (Module × List Error)) : List Module × Nat × Cache :=
  files.foldl
    (fun acc f =>
      let r := processFileHints fuel strict acc.2.2 f.1 f.2
      (acc.1 ++ [r.1], acc.2.1 + r.2.1, r.2.2))
    ([], 0, c)

end Runner

end TypeGuardian

namespace TypeGuardian

section UnifierLemmas

/-- The unifier on a singleton set: `"Any"` collapses, everything else is
returned unchanged. -/
theorem unifyTypes_singleton (t : String) :
    unifyTypes {t} = if t = "Any" then "Any" else t := by
  by_cases h : t = "Any"
  · subst h
    simp [unifyTypes, Finset.filter_singleton]
  · simp only [unifyTypes, if_neg (Finset.singleton_ne_empty t)]
    rw [Finset.filter_singleton]
    simp [h, finsetPop, sortedStrings_singleton]

theorem finsetPop_singleton (t : String) : finsetPop {t} = t := by
  simp [finsetPop, sortedStrings_singleton]

/-- On a set of card one the full unifier agrees with `pop`. -/
theorem unifyTypes_card_one {s : Finset String} (h : s.card = 1) :
    unifyTypes s = finsetPop s := by
  obtain ⟨t, rfl⟩ := Finset.card_eq_one.mp h
  rw [unifyTypes_singleton, finsetPop_singleton]
  split
  · next ha => exact ha.symm
  · rfl

end UnifierLemmas

section SpecSideDefinitions

/-- Modelled on the spec's words for `unify(types)` (§4.2): drop `"Any"`;
empty remainder ⇒ `"Any"`; one member ⇒ that member; a subset of
`{int, float}` ⇒ `"float"` when present else `"int"`; otherwise a sorted
`Union[...]`.  Compared against the source-derived `unifyTypes`. -/
def unifySpec (types : Finset String) : String :=
  let rest := types.filter fun t => t ≠ "Any"
  if rest = ∅ then "Any"
  else if rest.card = 1 then finsetPop rest
  else if rest ⊆ {"int", "float"} then
    if "float" ∈ rest then "float" else "int"
  else "Union[" ++ String.intercalate ", " (sortedStrings rest) ++ "]"

end SpecSideDefinitions

/-- C2: for every finite set `S` of type strings, `unify(S)` follows the
spec's case analysis (drop `Any`; empty ⇒ `Any`; singleton ⇒ unchanged;
numeric subset ⇒ widening; otherwise sorted `Union[...]`), and in
particular `unify({int,float}) = float`, `unify({str}) = str`,
`unify({Any}) = Any`, `unify({}) = Any`. -/
theorem claim_C2_unify_follows_spec :
    (∀ S : Finset String, unifyTypes S = unifySpec S)
    ∧ unifyTypes {"int", "float"} = "float"
    ∧ unifyTypes {"str"} = "str"
    ∧ unifyTypes {"Any"} = "Any"
    ∧ unifyTypes ∅ = "Any" := by
  refine ⟨fun S => ?_, by decide, by decide, by decide, by decide⟩
  by_cases h : S = ∅
  · subst h
    simp [unifyTypes, unifySpec]
  · simp [unifyTypes, unifySpec, h]

/-- C3: unification is idempotent: unifying the singleton of the output
with itself yields the output, `unify({unify(S)}) = unify(S)`. -/
theorem claim_C3_unify_idempotent :
    ∀ S : Finset String, unifyTypes {unifyTypes S} = unifyTypes S := by
  intro S
  rw [unifyTypes_singleton]
  split
  · next h => exact h.symm
  · rfl

end TypeGuardian

namespace TypeGuardian

section C4

/-- Modelled on the spec's words for `infer_return_type` (§4.3): collect
the return-expression types and the bare-return marker; empty collection ⇒
`"None"`; otherwise unify all collected types and wrap in `Optional[...]`
exactly when a bare return also occurred.  Compared against the
source-derived `inferReturnType`. -/
def inferReturnTypeSpec (fuel : Nat) (strict : Bool) (c : Cache) (func : Stmt) :
    Option String × Cache :=
  let r := collectReturnTypes fuel strict c func
  if r.1 = ∅ then (some "None", r.2.2)
  else
    let u := unifyTypes r.1
    (some (if r.2.1 then "Optional[" ++ u ++ "]" else u), r.2.2)

/-- Scenario B of the spec: a function returning `5` on one path and
`3.14` on the other, with no bare return. -/
def scenarioBFunc : Stmt :=
  .functionDef "f" []
    [.ifS (.compare (.name "x" (some ⟨2, 7⟩)) [.otherCmp]
        [.constant (.intV 0) (some ⟨2, 11⟩)] (some ⟨2, 7⟩))
      [.ret (some (.constant (.intV 5) (some ⟨3, 15⟩))) (some ⟨3, 8⟩)]
      [.ret (some (.constant (.floatV "3.14") (some ⟨5, 15⟩))) (some ⟨5, 8⟩)]
      (some ⟨2, 4⟩)]
    none (some ⟨1, 0⟩)

/-- A function whose only return is a string literal. -/
def scenarioStrFunc : Stmt :=
  .functionDef "g" []
    [.ret (some (.constant (.strV "x") (some ⟨2, 11⟩))) (some ⟨2, 4⟩)]
    none (some ⟨1, 0⟩)

end C4

/-- C4: `infer_return_type` returns `"None"` exactly when no typed return
expression was collected (no returns, or only bare returns), and otherwise
the unification of the collected return-expression types, wrapped in
`Optional[...]` precisely when a bare return also occurs; in particular a
function returning `5` and `3.14` infers `"float"`, and one whose only
return is a string literal infers `"str"`. -/
theorem claim_C4_infer_return_type :
    (∀ (fuel : Nat) (strict : Bool) (c : Cache) (func : Stmt),
        inferReturnType fuel strict c func = inferReturnTypeSpec fuel strict c func)
    ∧ (inferReturnType 10 false [] scenarioBFunc).1 = some "float"
    ∧ (inferReturnType 10 false [] scenarioStrFunc).1 = some "str" := by
  refine ⟨fun fuel strict c func => ?_, by decide, by decide⟩
  simp only [inferReturnType, inferReturnTypeSpec]
  by_cases h1 : (collectReturnTypes fuel strict c func).1 = ∅
  · simp [h1]
  · by_cases h2 : (collectReturnTypes fuel strict c func).1.card = 1
    · simp only [h1, h2, unifyTypes_card_one h2, if_neg, if_true, if_false]
      simp [h1, h2]
      split <;> rfl
    · simp only [h1, h2]
      simp [h1, h2]
      split <;> rfl

end TypeGuardian

namespace TypeGuardian

section C5

/-- A function whose parameter `p` is used only through `p.lower()`. -/
def paramFuncLower : Stmt :=
  .functionDef "h" [⟨"p", none, some ⟨1, 6⟩⟩]
    [.exprS (.call (.attr (.name "p" (some ⟨2, 4⟩)) "lower" (some ⟨2, 4⟩)) []
        (some ⟨2, 4⟩)) (some ⟨2, 4⟩)]
    none (some ⟨1, 0⟩)

/-- A function that never references its parameter `p`. -/
def paramFuncNoUse : Stmt :=
  .functionDef "h0" [⟨"p", none, some ⟨1, 6⟩⟩]
    [.ret (some (.constant (.intV 1) (some ⟨2, 11⟩))) (some ⟨2, 4⟩)]
    none (some ⟨1, 0⟩)

end C5

/-- C5: `infer_param_type` is decided by the first usage pattern of the
scan that the fixed table maps (method-call, subscript-key, iteration and
arithmetic rules), independently of all later patterns; and when the scan
finds no pattern at all, the result is `"Any"` in non-strict mode and no
annotation in strict mode. -/
theorem claim_C5_param_first_pattern_wins :
    (∀ (fuel : Nat) (strict : Bool) (c c2 : Cache) (p : String) (func : Stmt),
        analyzeParamUsage fuel strict c p func = ([], c2) →
        inferParamType fuel strict c p func =
          ((if strict then none else some "Any"), c2))
    ∧ (∀ (fuel : Nat) (strict : Bool) (c c2 : Cache) (p : String) (func : Stmt)
        (pat : UsagePattern) (rest : List UsagePattern) (t : String),
        analyzeParamUsage fuel strict c p func = (pat :: rest, c2) →
        patternTableType pat = some t →
        inferParamType fuel strict c p func = (some t, c2)) := by
  constructor
  · intro fuel strict c c2 p func h
    simp [inferParamType, h]
  · intro fuel strict c c2 p func pat rest t h ht
    simp [inferParamType, h, inferFromPatterns, ht]

/-- Witness for C5 at concrete inputs: `p.lower()` as the first (and only)
pattern forces `str`, and a pattern-free function defaults to `Any`
non-strict and to no annotation strict. -/
theorem claim_C5_witness :
    inferParamType 10 false [] "p" paramFuncLower = (some "str", [])
    ∧ inferParamType 10 false [] "p" paramFuncNoUse = (some "Any", [])
    ∧ inferParamType 10 true [] "p" paramFuncNoUse = (none, []) := by
  refine ⟨?_, ?_, ?_⟩
  · exact claim_C5_param_first_pattern_wins.2 10 false [] [] "p" paramFuncLower
      (.methodCall "lower") [] "str" rfl rfl
  · exact claim_C5_param_first_pattern_wins.1 10 false [] [] "p" paramFuncNoUse rfl
  · exact claim_C5_param_first_pattern_wins.1 10 true [] [] "p" paramFuncNoUse rfl

end TypeGuardian

namespace TypeGuardian

section C6

/-- A function whose parameter `p` is used only through `p.append(1)`. -/
def paramFuncAppend : Stmt :=
  .functionDef "h2" [⟨"p", none, some ⟨1, 7⟩⟩]
    [.exprS (.call (.attr (.name "p" (some ⟨2, 4⟩)) "append" (some ⟨2, 4⟩))
        [.constant (.intV 1) (some ⟨2, 13⟩)] (some ⟨2, 4⟩)) (some ⟨2, 4⟩)]
    none (some ⟨1, 0⟩)

/-- No entry of the fixed pattern table is the bare annotation `"Any"`. -/
theorem patternTableType_ne_any (pat : UsagePattern) :
    patternTableType pat ≠ some "Any" := by
  cases pat with
  | methodCall m =>
      simp only [patternTableType]
      split_ifs <;> simp
  | subscriptP k =>
      simp only [patternTableType]
      split_ifs <;> simp
  | iteration => simp [patternTableType]
  | binop op =>
      simp only [patternTableType]
      split_ifs <;> simp

/-- In strict mode the pattern loop never returns the bare `"Any"`. -/
theorem inferFromPatterns_strict_ne_any :
    ∀ pats : List UsagePattern, inferFromPatterns true pats ≠ some "Any" := by
  intro pats
  induction pats with
  | nil => simp [inferFromPatterns]
  | cons pat rest ih =>
      simp only [inferFromPatterns]
      cases h : patternTableType pat with
      | none => simpa using ih
      | some t =>
          intro hc
          apply patternTableType_ne_any pat
          rw [h]
          simpa using hc
  
end C6

/-- C6 counterexample: in strict mode, a parameter used via `p.append(1)`
is still annotated `List[Any]`, an annotation string containing `"Any"` —
so strict inference does produce annotations containing `Any`. -/
theorem claim_C6_counterexample :
    inferParamType 10 true [] "p" paramFuncAppend = (some "List[Any]", [])
    ∧ "Any".toList <:+: "List[Any]".toList :=
  ⟨rfl, ⟨"List[".toList, "]".toList, rfl⟩⟩

/-- C6 (amended): in strict mode every "default to Any" branch declines
instead of guessing: a pattern-free parameter scan yields no annotation,
the pattern loop never returns the bare `"Any"` (so `infer_param_type`
never returns bare `"Any"` under strict), and a variable with no
assignments found yields no annotation — but table entries may still embed
`Any` as a type argument (e.g. `List[Any]`). -/
theorem claim_C6_amended_strict_defaults :
    (∀ (fuel : Nat) (c c2 : Cache) (p : String) (func : Stmt),
        analyzeParamUsage fuel true c p func = ([], c2) →
        inferParamType fuel true c p func = (none, c2))
    ∧ (∀ pats : List UsagePattern, inferFromPatterns true pats ≠ some "Any")
    ∧ (∀ (fuel : Nat) (c : Cache) (p : String) (func : Stmt),
        (inferParamType fuel true c p func).1 ≠ some "Any")
    ∧ (∀ (fuel : Nat) (c : Cache) (v : String) (tree : Node),
        findAssignments v tree = [] →
        (inferVariableTypeAll fuel true c v tree).1 = none) := by
  refine ⟨?_, inferFromPatterns_strict_ne_any, ?_, ?_⟩
  · intro fuel c c2 p func h
    simp [inferParamType, h]
  · intro fuel c p func
    simp only [inferParamType]
    cases hq : (analyzeParamUsage fuel true c p func).1 with
    | nil => simp [hq]
    | cons pat rest =>
        simp only [hq]
        exact inferFromPatterns_strict_ne_any (pat :: rest)
  · intro fuel c v tree h
    simp [inferVariableTypeAll, h]

/-- Witness for the amended C6 at concrete inputs. -/
theorem claim_C6_amended_witness :
    inferParamType 10 true [] "p" paramFuncNoUse = (none, [])
    ∧ inferFromPatterns true [.methodCall "lower"] ≠ some "Any"
    ∧ (inferParamType 5 true [] "p" paramFuncLower).1 ≠ some "Any"
    ∧ (inferVariableTypeAll 3 true [] "x" (.moduleN ⟨[]⟩)).1 = none :=
  ⟨claim_C6_amended_strict_defaults.1 10 [] [] "p" paramFuncNoUse rfl,
   claim_C6_amended_strict_defaults.2.1 [.methodCall "lower"],
   claim_C6_amended_strict_defaults.2.2.1 5 [] "p" paramFuncLower,
   claim_C6_amended_strict_defaults.2.2.2 3 [] "x" (.moduleN ⟨[]⟩) rfl⟩

end TypeGuardian

namespace TypeGuardian

section C1

/-- A tree in which `user.email` (line 3) sits inside
`if user is not None: [0, user.email]`. -/
def guardTree : Module :=
  ⟨[.ifS (.compare (.name "user" (some ⟨1, 3⟩)) [.isNotOp]
      [.constant .noneV (some ⟨1, 15⟩)] (some ⟨1, 3⟩))
      [.exprS (.listE [.constant (.intV 0) (some ⟨2, 5⟩),
          .attr (.name "user" (some ⟨3, 6⟩)) "email" (some ⟨3, 6⟩)] (some ⟨2, 4⟩))
        (some ⟨2, 4⟩)]
      [] (some ⟨1, 0⟩)]⟩

/-- As `guardTree`, but the guarded line-3 node is the call
`user.email()`. -/
def guardTreeCall : Module :=
  ⟨[.ifS (.compare (.name "user" (some ⟨1, 3⟩)) [.isNotOp]
      [.constant .noneV (some ⟨1, 15⟩)] (some ⟨1, 3⟩))
      [.exprS (.listE [.constant (.intV 0) (some ⟨2, 5⟩),
          .call (.attr (.name "user" (some ⟨3, 6⟩)) "email" (some ⟨3, 6⟩)) []
            (some ⟨3, 6⟩)] (some ⟨2, 4⟩))
        (some ⟨2, 4⟩)]
      [] (some ⟨1, 0⟩)]⟩

end C1

/-- C1: when the node located at an `optional_none` diagnostic's line is an
attribute access (or a call through one) whose receiver is the bare name
`v`, and that access already sits inside the body of an `If` guard testing
`v is None` / `v is not None`, then `OptionalFixer.fix` returns the tree
unchanged and reports the fix as not applied — so a second run never
double-wraps a guarded access. -/
theorem claim_C1_no_double_wrap :
    (∀ (tree : Module) (err : Error) (v a : String) (lv le : Option Loc),
        err.category = "optional_none" →
        findNodeAtLine (.moduleN tree) err.line =
          some (.exprN (.attr (.name v lv) a le)) →
        isAlreadyGuarded tree (.attr (.name v lv) a le) v = true →
        optionalFixerFix err tree = (tree, false))
    ∧ (∀ (tree : Module) (err : Error) (v a : String) (lv le lc : Option Loc)
        (args : List Expr),
        err.category = "optional_none" →
        findNodeAtLine (.moduleN tree) err.line =
          some (.exprN (.call (.attr (.name v lv) a le) args lc)) →
        isAlreadyGuarded tree (.attr (.name v lv) a le) v = true →
        optionalFixerFix err tree = (tree, false)) := by
  constructor
  · intro tree err v a lv le _ hfind hguard
    simp [optionalFixerFix, hfind, fixOptionalAttributeAccess, hguard]
  · intro tree err v a lv le lc args _ hfind hguard
    simp [optionalFixerFix, hfind, fixOptionalAttributeAccess, hguard]

/-- Witness for C1 on the two concrete guarded trees. -/
theorem claim_C1_witness :
    optionalFixerFix ⟨"optional_none", 3, "Item has no attribute", none⟩ guardTree
      = (guardTree, false)
    ∧ optionalFixerFix ⟨"optional_none", 3, "Item has no attribute", none⟩ guardTreeCall
      = (guardTreeCall, false) :=
  ⟨claim_C1_no_double_wrap.1 guardTree _ "user" "email" (some ⟨3, 6⟩) (some ⟨3, 6⟩)
      rfl rfl rfl,
   claim_C1_no_double_wrap.2 guardTreeCall _ "user" "email" (some ⟨3, 6⟩) (some ⟨3, 6⟩)
      (some ⟨3, 6⟩) [] rfl rfl rfl⟩

end TypeGuardian

namespace TypeGuardian

section C9

/-- Scenario D of the spec: `items = []` (line 1), later used only via
`items.append(User())` (line 2). -/
def scenarioDTree : Module :=
  ⟨[.assign [.name "items" (some ⟨1, 0⟩)] (.listE [] (some ⟨1, 8⟩)) (some ⟨1, 0⟩),
    .exprS (.call (.attr (.name "items" (some ⟨2, 0⟩)) "append" (some ⟨2, 0⟩))
      [.call (.name "User" (some ⟨2, 13⟩)) [] (some ⟨2, 13⟩)] (some ⟨2, 0⟩))
      (some ⟨2, 0⟩)]⟩

def scenarioDErr : Error :=
  ⟨"collection_type", 1, "Need type annotation", some "items"⟩

/-- The tree scenario D must produce: the assignment promoted to
`items: List[User] = []` (keeping the original location, copied by the
collection fixer's replacement primitive), the append untouched. -/
def scenarioDExpected : Module :=
  ⟨[.annAssign (.name "items" (some ⟨1, 0⟩))
      (.subscript (.name "List" none) (.name "User" none) none)
      (some (.listE [] (some ⟨1, 8⟩))) 1 (some ⟨1, 0⟩),
    .exprS (.call (.attr (.name "items" (some ⟨2, 0⟩)) "append" (some ⟨2, 0⟩))
      [.call (.name "User" (some ⟨2, 13⟩)) [] (some ⟨2, 13⟩)] (some ⟨2, 0⟩))
      (some ⟨2, 0⟩)]⟩

end C9

/-- C9: the collection fixer prefers the literal initializer — a non-empty
list literal with an inferable element type decides the annotation
regardless of appends — and falls back to append/add usage for an empty
literal, producing `List[t]` for one appended type and a sorted
`List[Union[...]]` for several; in particular scenario D (`items = []`
plus `items.append(User())`) promotes the assignment to an annotated
assignment `items: List[User] = []` with `applied = true`. -/
theorem claim_C9_collection_fixer :
    (∀ (tree : Module) (v : String) (targets : List Expr) (ll al : Option Loc),
        inferCollectionType (.assign targets (.listE [] ll) al) tree v =
          (match inferFromUsage tree v with
           | some u => some u
           | none => some "List[Any]"))
    ∧ (∀ (tree : Module) (v : String) (targets : List Expr) (elts : List Expr)
        (ll al : Option Loc) (t : String),
        literalElemTypes elts = some t →
        inferCollectionType (.assign targets (.listE elts ll) al) tree v =
          some ("List[" ++ t ++ "]"))
    ∧ (∀ (tree : Module) (v : String) (t : String),
        appendedTypes tree v = {t} →
        inferFromUsage tree v = some ("List[" ++ t ++ "]"))
    ∧ (∀ (tree : Module) (v : String),
        1 < (appendedTypes tree v).card →
        inferFromUsage tree v =
          some ("List[Union[" ++
            String.intercalate ", " (sortedStrings (appendedTypes tree v)) ++ "]]"))
    ∧ collectionFixerFix scenarioDErr scenarioDTree = (scenarioDExpected, true) := by
  refine ⟨?_, ?_, ?_, ?_, rfl⟩
  · intro tree v targets ll al
    cases h : inferFromUsage tree v <;>
      simp [inferCollectionType, inferFromLiteral, literalElemTypes, h]
  · intro tree v targets elts ll al t h
    simp [inferCollectionType, inferFromLiteral, h]
  · intro tree v t h
    simp [inferFromUsage, h, finsetPop_singleton]
  · intro tree v h
    have h1 : ¬ (appendedTypes tree v).card = 1 := by omega
    simp [inferFromUsage, h, h1]

/-- Witness for C9 at concrete inputs: the scenario D tree (for the
usage-driven conjuncts) and a two-element literal (for the
literal-priority conjunct). -/
theorem claim_C9_witness :
    inferCollectionType (.assign [.name "items" none] (.listE [] none) none)
        scenarioDTree "items" = some "List[User]"
    ∧ inferCollectionType
        (.assign [.name "xs" none]
          (.listE [.constant (.intV 1) none, .constant (.intV 2) none] none) none)
        scenarioDTree "xs" = some "List[int]"
    ∧ inferFromUsage scenarioDTree "items" = some "List[User]" := by
  refine ⟨?_, ?_, ?_⟩
  · rw [claim_C9_collection_fixer.1 scenarioDTree "items" [.name "items" none] none none]
    rfl
  · exact claim_C9_collection_fixer.2.1 scenarioDTree "xs" [.name "xs" none]
      [.constant (.intV 1) none, .constant (.intV 2) none] none none "int" rfl
  · exact claim_C9_collection_fixer.2.2.1 scenarioDTree "items" "User" rfl

end TypeGuardian

namespace TypeGuardian

section OccursLemmas

mutual

/-- Does some structural slot in the subtree rooted at `e` — the root
position itself included — hold `old` (by the node identity model)? -/
def occursE (old : Node) : Expr → Bool
  | .constant v l => beqNode (.exprN (.constant v l)) old
  | .name i l => beqNode (.exprN (.name i l)) old
  | .call f args l =>
      beqNode (.exprN (.call f args l)) old ||
        (occursE old f || occursEList old args)
  | .attr v a l => beqNode (.exprN (.attr v a l)) old || occursE old v
  | .subscript v s l =>
      beqNode (.exprN (.subscript v s l)) old ||
        (occursE old v || occursE old s)
  | .listE es l => beqNode (.exprN (.listE es l)) old || occursEList old es
  | .dictE ks vs l =>
      beqNode (.exprN (.dictE ks vs l)) old ||
        (occursOptEList old ks || occursEList old vs)
  | .setE es l => beqNode (.exprN (.setE es l)) old || occursEList old es
  | .tupleE es l => beqNode (.exprN (.tupleE es l)) old || occursEList old es
  | .binOp a o b l =>
      beqNode (.exprN (.binOp a o b l)) old ||
        (occursE old a || occursE old b)
  | .compare a os cs l =>
      beqNode (.exprN (.compare a os cs l)) old ||
        (occursE old a || occursEList old cs)
  | .boolOp vs l => beqNode (.exprN (.boolOp vs l)) old || occursEList old vs
  | .ifExp t b o l =>
      beqNode (.exprN (.ifExp t b o l)) old ||
        (occursE old t || occursE old b || occursE old o)

def occursEList (old : Node) : List Expr → Bool
  | [] => false
  | e :: es => occursE old e || occursEList old es

def occursOptEList (old : Node) : List (Option Expr) → Bool
  | [] => false
  | none :: es => occursOptEList old es
  | some e :: es => occursE old e || occursOptEList old es

end

def occursOptE (old : Node) : Option Expr → Bool
  | none => false
  | some e => occursE old e

def occursArg (old : Node) (a : Arg) : Bool :=
  beqNode (.argN a) old || occursOptE old a.annot

def occursArgList (old : Node) : List Arg → Bool
  | [] => false
  | a :: as => occursArg old a || occursArgList old as

mutual

def occursS (old : Node) : Stmt → Bool
  | .functionDef n args body r l =>
      beqNode (.stmtN (.functionDef n args body r l)) old ||
        (occursArgList old args || occursSList old body || occursOptE old r)
  | .ret v l => beqNode (.stmtN (.ret v l)) old || occursOptE old v
  | .assign ts v l =>
      beqNode (.stmtN (.assign ts v l)) old ||
        (occursEList old ts || occursE old v)
  | .annAssign t a v sm l =>
      beqNode (.stmtN (.annAssign t a v sm l)) old ||
        (occursE old t || occursE old a || occursOptE old v)
  | .ifS t b o l =>
      beqNode (.stmtN (.ifS t b o l)) old ||
        (occursE old t || occursSList old b || occursSList old o)
  | .forS t i b o l =>
      beqNode (.stmtN (.forS t i b o l)) old ||
        (occursE old t || occursE old i || occursSList old b || occursSList old o)
  | .exprS v l => beqNode (.stmtN (.exprS v l)) old || occursE old v
  | .importS ns l => beqNode (.stmtN (.importS ns l)) old
  | .importFrom m ns lv l => beqNode (.stmtN (.importFrom m ns lv l)) old

def occursSList (old : Node) : List Stmt → Bool
  | [] => false
  | s :: ss => occursS old s || occursSList old ss

end

/-- Does some structural slot of the tree hold `old`? -/
def occursInModule (old : Node) (tree : Module) : Bool :=
  occursSList old tree.body

mutual

/-- The expression leg of the replacement/occurrence correspondence: the
found flag equals slot occurrence, and without an occurrence the subtree
is rebuilt unchanged. -/
theorem replSlotE_spec (wl : Bool) (old new : Node) (e : Expr) :
    (replSlotE wl old new e).2 = occursE old e
    ∧ (occursE old e = false → (replSlotE wl old new e).1 = e) := by
  cases e with
  | constant v l =>
      by_cases hb : beqNode (.exprN (.constant v l)) old = true
      · exact ⟨by simp [replSlotE, occursE, hb], fun h => by simp [occursE, hb] at h⟩
      · exact ⟨by simp [replSlotE, occursE, hb], fun _ => by simp [replSlotE, hb]⟩
  | name i l =>
      by_cases hb : beqNode (.exprN (.name i l)) old = true
      · exact ⟨by simp [replSlotE, occursE, hb], fun h => by simp [occursE, hb] at h⟩
      · exact ⟨by simp [replSlotE, occursE, hb], fun _ => by simp [replSlotE, hb]⟩
  | attr v a l =>
      have ih := replSlotE_spec wl old new v
      by_cases hb : beqNode (.exprN (.attr v a l)) old = true
      · exact ⟨by simp [replSlotE, occursE, hb], fun h => by simp [occursE, hb] at h⟩
      · constructor
        · simp [replSlotE, occursE, hb, ih.1]
        · intro h
          simp only [occursE, hb, Bool.false_or] at h
          simp [replSlotE, hb, ih.1, h, ih.2 h]
  | call f args l =>
      have ih1 := replSlotE_spec wl old new f
      have ih2 := replSlotEList_spec wl old new args
      by_cases hb : beqNode (.exprN (.call f args l)) old = true
      · exact ⟨by simp [replSlotE, occursE, hb], fun h => by simp [occursE, hb] at h⟩
      · constructor
        · by_cases hf : occursE old f = true
          · simp [replSlotE, occursE, hb, ih1.1, hf]
          · simp [replSlotE, occursE, hb, ih1.1, hf, ih2.1]
        · intro h
          simp only [occursE, hb, Bool.false_or, Bool.or_eq_false_iff] at h
          simp [replSlotE, hb, ih1.1, h.1, ih1.2 h.1, ih2.1, h.2, ih2.2 h.2]
  | subscript v s l =>
      have ih1 := replSlotE_spec wl old new v
      have ih2 := replSlotE_spec wl old new s
      by_cases hb : beqNode (.exprN (.subscript v s l)) old = true
      · exact ⟨by simp [replSlotE, occursE, hb], fun h => by simp [occursE, hb] at h⟩
      · constructor
        · by_cases hf : occursE old v = true
          · simp [replSlotE, occursE, hb, ih1.1, hf]
          · simp [replSlotE, occursE, hb, ih1.1, hf, ih2.1]
        · intro h
          simp only [occursE, hb, Bool.false_or, Bool.or_eq_false_iff] at h
          simp [replSlotE, hb, ih1.1, h.1, ih1.2 h.1, ih2.1, h.2, ih2.2 h.2]
  | listE es l =>
      have ih := replSlotEList_spec wl old new es
      by_cases hb : beqNode (.exprN (.listE es l)) old = true
      · exact ⟨by simp [replSlotE, occursE, hb], fun h => by simp [occursE, hb] at h⟩
      · constructor
        · simp [replSlotE, occursE, hb, ih.1]
        · intro h
          simp only [occursE, hb, Bool.false_or] at h
          simp [replSlotE, hb, ih.1, h, ih.2 h]
  | dictE ks vs l =>
      have ih1 := replSlotOptEList_spec wl old new ks
      have ih2 := replSlotEList_spec wl old new vs
      by_cases hb : beqNode (.exprN (.dictE ks vs l)) old = true
      · exact ⟨by simp [replSlotE, occursE, hb], fun h => by simp [occursE, hb] at h⟩
      · constructor
        · by_cases hf : occursOptEList old ks = true
          · simp [replSlotE, occursE, hb, ih1.1, hf]
          · simp [replSlotE, occursE, hb, ih1.1, hf, ih2.1]
        · intro h
          simp only [occursE, hb, Bool.false_or, Bool.or_eq_false_iff] at h
          simp [replSlotE, hb, ih1.1, h.1, ih1.2 h.1, ih2.1, h.2, ih2.2 h.2]
  | setE es l =>
      have ih := replSlotEList_spec wl old new es
      by_cases hb : beqNode (.exprN (.setE es l)) old = true
      · exact ⟨by simp [replSlotE, occursE, hb], fun h => by simp [occursE, hb] at h⟩
      · constructor
        · simp [replSlotE, occursE, hb, ih.1]
        · intro h
          simp only [occursE, hb, Bool.false_or] at h
          simp [replSlotE, hb, ih.1, h, ih.2 h]
  | tupleE es l =>
      have ih := replSlotEList_spec wl old new es
      by_cases hb : beqNode (.exprN (.tupleE es l)) old = true
      · exact ⟨by simp [replSlotE, occursE, hb], fun h => by simp [occursE, hb] at h⟩
      · constructor
        · simp [replSlotE, occursE, hb, ih.1]
        · intro h
          simp only [occursE, hb, Bool.false_or] at h
          simp [replSlotE, hb, ih.1, h, ih.2 h]
  | binOp a o b l =>
      have ih1 := replSlotE_spec wl old new a
      have ih2 := replSlotE_spec wl old new b
      by_cases hb : beqNode (.exprN (.binOp a o b l)) old = true
      · exact ⟨by simp [replSlotE, occursE, hb], fun h => by simp [occursE, hb] at h⟩
      · constructor
        · by_cases hf : occursE old a = true
          · simp [replSlotE, occursE, hb, ih1.1, hf]
          · simp [replSlotE, occursE, hb, ih1.1, hf, ih2.1]
        · intro h
          simp only [occursE, hb, Bool.false_or, Bool.or_eq_false_iff] at h
          simp [replSlotE, hb, ih1.1, h.1, ih1.2 h.1, ih2.1, h.2, ih2.2 h.2]
  | compare a os cs l =>
      have ih1 := replSlotE_spec wl old new a
      have ih2 := replSlotEList_spec wl old new cs
      by_cases hb : beqNode (.exprN (.compare a os cs l)) old = true
      · exact ⟨by simp [replSlotE, occursE, hb], fun h => by simp [occursE, hb] at h⟩
      · constructor
        · by_cases hf : occursE old a = true
          · simp [replSlotE, occursE, hb, ih1.1, hf]
          · simp [replSlotE, occursE, hb, ih1.1, hf, ih2.1]
        · intro h
          simp only [occursE, hb, Bool.false_or, Bool.or_eq_false_iff] at h
          simp [replSlotE, hb, ih1.1, h.1, ih1.2 h.1, ih2.1, h.2, ih2.2 h.2]
  | boolOp vs l =>
      have ih := replSlotEList_spec wl old new vs
      by_cases hb : beqNode (.exprN (.boolOp vs l)) old = true
      · exact ⟨by simp [replSlotE, occursE, hb], fun h => by simp [occursE, hb] at h⟩
      · constructor
        · simp [replSlotE, occursE, hb, ih.1]
        · intro h
          simp only [occursE, hb, Bool.false_or] at h
          simp [replSlotE, hb, ih.1, h, ih.2 h]
  | ifExp t b o l =>
      have ih1 := replSlotE_spec wl old new t
      have ih2 := replSlotE_spec wl old new b
      have ih3 := replSlotE_spec wl old new o
      by_cases hb : beqNode (.exprN (.ifExp t b o l)) old = true
      · exact ⟨by simp [replSlotE, occursE, hb], fun h => by simp [occursE, hb] at h⟩
      · constructor
        · by_cases h1 : occursE old t = true
          · simp [replSlotE, occursE, hb, ih1.1, h1]
          · by_cases h2 : occursE old b = true
            · simp [replSlotE, occursE, hb, ih1.1, ih2.1, h1, h2]
            · simp [replSlotE, occursE, hb, ih1.1, ih2.1, ih3.1, h1, h2]
        · intro h
          simp only [occursE, hb, Bool.false_or, Bool.or_eq_false_iff] at h
          simp [replSlotE, hb, ih1.1, h.1.1, ih1.2 h.1.1, ih2.1, h.1.2,
            ih2.2 h.1.2, ih3.1, h.2, ih3.2 h.2]

theorem replSlotEList_spec (wl : Bool) (old new : Node) (es : List Expr) :
    (replSlotEList wl old new es).2 = occursEList old es
    ∧ (occursEList old es = false → (replSlotEList wl old new es).1 = es) := by
  cases es with
  | nil => simp [replSlotEList, occursEList]
  | cons e es =>
      have ih1 := replSlotE_spec wl old new e
      have ih2 := replSlotEList_spec wl old new es
      constructor
      · by_cases hf : occursE old e = true
        · simp [replSlotEList, occursEList, ih1.1, hf]
        · simp [replSlotEList, occursEList, ih1.1, hf, ih2.1]
      · intro h
        simp only [occursEList, Bool.or_eq_false_iff] at h
        simp [replSlotEList, ih1.1, h.1, ih1.2 h.1, ih2.1, h.2, ih2.2 h.2]

theorem replSlotOptEList_spec (wl : Bool) (old new : Node) (es : List (Option Expr)) :
    (replSlotOptEList wl old new es).2 = occursOptEList old es
    ∧ (occursOptEList old es = false → (replSlotOptEList wl old new es).1 = es) := by
  cases es with
  | nil => simp [replSlotOptEList, occursOptEList]
  | cons e es =>
      cases e with
      | none =>
          have ih2 := replSlotOptEList_spec wl old new es
          constructor
          · simp [replSlotOptEList, occursOptEList, ih2.1]
          · intro h
            simp only [occursOptEList] at h
            simp [replSlotOptEList, ih2.1, h, ih2.2 h]
      | some e =>
          have ih1 := replSlotE_spec wl old new e
          have ih2 := replSlotOptEList_spec wl old new es
          constructor
          · by_cases hf : occursE old e = true
            · simp [replSlotOptEList, occursOptEList, ih1.1, hf]
            · simp [replSlotOptEList, occursOptEList, ih1.1, hf, ih2.1]
          · intro h
            simp only [occursOptEList, Bool.or_eq_false_iff] at h
            simp [replSlotOptEList, ih1.1, h.1, ih1.2 h.1, ih2.1, h.2, ih2.2 h.2]

end

end OccursLemmas

end TypeGuardian

namespace TypeGuardian

section OccursLemmasRest

theorem replSlotOptE_spec (wl : Bool) (old new : Node) (v : Option Expr) :
    (replSlotOptE wl old new v).2 = occursOptE old v
    ∧ (occursOptE old v = false → (replSlotOptE wl old new v).1 = v) := by
  cases v with
  | none => simp [replSlotOptE, occursOptE]
  | some e =>
      have ih := replSlotE_spec wl old new e
      constructor
      · simp [replSlotOptE, occursOptE, ih.1]
      · intro h
        simp only [occursOptE] at h
        simp [replSlotOptE, ih.2 h]

theorem replSlotArg_spec (wl : Bool) (old new : Node) (a : Arg) :
    (replSlotArg wl old new a).2 = occursArg old a
    ∧ (occursArg old a = false → (replSlotArg wl old new a).1 = a) := by
  have ih := replSlotOptE_spec wl old new a.annot
  by_cases hb : beqNode (.argN a) old = true
  · exact ⟨by simp [replSlotArg, occursArg, hb],
      fun h => by simp [occursArg, hb] at h⟩
  · constructor
    · simp [replSlotArg, occursArg, hb, ih.1]
    · intro h
      simp only [occursArg, hb, Bool.false_or] at h
      simp [replSlotArg, hb, ih.2 h]

theorem replSlotArgList_spec (wl : Bool) (old new : Node) (as : List Arg) :
    (replSlotArgList wl old new as).2 = occursArgList old as
    ∧ (occursArgList old as = false → (replSlotArgList wl old new as).1 = as) := by
  induction as with
  | nil => simp [replSlotArgList, occursArgList]
  | cons a as ih2 =>
      have ih1 := replSlotArg_spec wl old new a
      constructor
      · by_cases hf : occursArg old a = true
        · simp [replSlotArgList, occursArgList, ih1.1, hf]
        · simp [replSlotArgList, occursArgList, ih1.1, hf, ih2.1]
      · intro h
        simp only [occursArgList, Bool.or_eq_false_iff] at h
        simp [replSlotArgList, ih1.1, h.1, ih1.2 h.1, ih2.1, h.2, ih2.2 h.2]

mutual

/-- The statement leg of the replacement/occurrence correspondence. -/
theorem replSlotS_spec (wl : Bool) (old new : Node) (s : Stmt) :
    (replSlotS wl old new s).2 = occursS old s
    ∧ (occursS old s = false → (replSlotS wl old new s).1 = s) := by
  cases s with
  | functionDef n args body r l =>
      have ih1 := replSlotArgList_spec wl old new args
      have ih2 := replSlotSList_spec wl old new body
      have ih3 := replSlotOptE_spec wl old new r
      by_cases hb : beqNode (.stmtN (.functionDef n args body r l)) old = true
      · exact ⟨by simp [replSlotS, occursS, hb], fun h => by simp [occursS, hb] at h⟩
      · constructor
        · by_cases h1 : occursArgList old args = true
          · simp [replSlotS, occursS, hb, ih1.1, h1]
          · by_cases h2 : occursSList old body = true
            · simp [replSlotS, occursS, hb, ih1.1, ih2.1, h1, h2]
            · simp [replSlotS, occursS, hb, ih1.1, ih2.1, ih3.1, h1, h2]
        · intro h
          simp only [occursS, hb, Bool.false_or, Bool.or_eq_false_iff] at h
          simp [replSlotS, hb, ih1.1, h.1.1, ih1.2 h.1.1, ih2.1, h.1.2,
            ih2.2 h.1.2, ih3.1, h.2, ih3.2 h.2]
  | ret v l =>
      have ih := replSlotOptE_spec wl old new v
      by_cases hb : beqNode (.stmtN (.ret v l)) old = true
      · exact ⟨by simp [replSlotS, occursS, hb], fun h => by simp [occursS, hb] at h⟩
      · constructor
        · simp [replSlotS, occursS, hb, ih.1]
        · intro h
          simp only [occursS, hb, Bool.false_or] at h
          simp [replSlotS, hb, ih.2 h]
  | assign ts v l =>
      have ih1 := replSlotEList_spec wl old new ts
      have ih2 := replSlotE_spec wl old new v
      by_cases hb : beqNode (.stmtN (.assign ts v l)) old = true
      · exact ⟨by simp [replSlotS, occursS, hb], fun h => by simp [occursS, hb] at h⟩
      · constructor
        · by_cases hf : occursEList old ts = true
          · simp [replSlotS, occursS, hb, ih1.1, hf]
          · simp [replSlotS, occursS, hb, ih1.1, hf, ih2.1]
        · intro h
          simp only [occursS, hb, Bool.false_or, Bool.or_eq_false_iff] at h
          simp [replSlotS, hb, ih1.1, h.1, ih1.2 h.1, ih2.1, h.2, ih2.2 h.2]
  | annAssign t a v sm l =>
      have ih1 := replSlotE_spec wl old new t
      have ih2 := replSlotE_spec wl old new a
      have ih3 := replSlotOptE_spec wl old new v
      by_cases hb : beqNode (.stmtN (.annAssign t a v sm l)) old = true
      · exact ⟨by simp [replSlotS, occursS, hb], fun h => by simp [occursS, hb] at h⟩
      · constructor
        · by_cases h1 : occursE old t = true
          · simp [replSlotS, occursS, hb, ih1.1, h1]
          · by_cases h2 : occursE old a = true
            · simp [replSlotS, occursS, hb, ih1.1, ih2.1, h1, h2]
            · simp [replSlotS, occursS, hb, ih1.1, ih2.1, ih3.1, h1, h2]
        · intro h
          simp only [occursS, hb, Bool.false_or, Bool.or_eq_false_iff] at h
          simp [replSlotS, hb, ih1.1, h.1.1, ih1.2 h.1.1, ih2.1, h.1.2,
            ih2.2 h.1.2, ih3.1, h.2, ih3.2 h.2]
  | ifS t b o l =>
      have ih1 := replSlotE_spec wl old new t
      have ih2 := replSlotSList_spec wl old new b
      have ih3 := replSlotSList_spec wl old new o
      by_cases hb : beqNode (.stmtN (.ifS t b o l)) old = true
      · exact ⟨by simp [replSlotS, occursS, hb], fun h => by simp [occursS, hb] at h⟩
      · constructor
        · by_cases h1 : occursE old t = true
          · simp [replSlotS, occursS, hb, ih1.1, h1]
          · by_cases h2 : occursSList old b = true
            · simp [replSlotS, occursS, hb, ih1.1, ih2.1, h1, h2]
            · simp [replSlotS, occursS, hb, ih1.1, ih2.1, ih3.1, h1, h2]
        · intro h
          simp only [occursS, hb, Bool.false_or, Bool.or_eq_false_iff] at h
          simp [replSlotS, hb, ih1.1, h.1.1, ih1.2 h.1.1, ih2.1, h.1.2,
            ih2.2 h.1.2, ih3.1, h.2, ih3.2 h.2]
  | forS t i b o l =>
      have ih1 := replSlotE_spec wl old new t
      have ih2 := replSlotE_spec wl old new i
      have ih3 := replSlotSList_spec wl old new b
      have ih4 := replSlotSList_spec wl old new o
      by_cases hb : beqNode (.stmtN (.forS t i b o l)) old = true
      · exact ⟨by simp [replSlotS, occursS, hb], fun h => by simp [occursS, hb] at h⟩
      · constructor
        · by_cases h1 : occursE old t = true
          · simp [replSlotS, occursS, hb, ih1.1, h1]
          · by_cases h2 : occursE old i = true
            · simp [replSlotS, occursS, hb, ih1.1, ih2.1, h1, h2]
            · by_cases h3 : occursSList old b = true
              · simp [replSlotS, occursS, hb, ih1.1, ih2.1, ih3.1, h1, h2, h3]
              · simp [replSlotS, occursS, hb, ih1.1, ih2.1, ih3.1, ih4.1, h1, h2, h3]
        · intro h
          simp only [occursS, hb, Bool.false_or, Bool.or_eq_false_iff] at h
          simp [replSlotS, hb, ih1.1, h.1.1.1, ih1.2 h.1.1.1, ih2.1, h.1.1.2,
            ih2.2 h.1.1.2, ih3.1, h.1.2, ih3.2 h.1.2, ih4.1, h.2, ih4.2 h.2]
  | exprS v l =>
      have ih := replSlotE_spec wl old new v
      by_cases hb : beqNode (.stmtN (.exprS v l)) old = true
      · exact ⟨by simp [replSlotS, occursS, hb], fun h => by simp [occursS, hb] at h⟩
      · constructor
        · simp [replSlotS, occursS, hb, ih.1]
        · intro h
          simp only [occursS, hb, Bool.false_or] at h
          simp [replSlotS, hb, ih.2 h]
  | importS ns l =>
      by_cases hb : beqNode (.stmtN (.importS ns l)) old = true
      · exact ⟨by simp [replSlotS, occursS, hb], fun h => by simp [occursS, hb] at h⟩
      · exact ⟨by simp [replSlotS, occursS, hb], fun _ => by simp [replSlotS, hb]⟩
  | importFrom m ns lv l =>
      by_cases hb : beqNode (.stmtN (.importFrom m ns lv l)) old = true
      · exact ⟨by simp [replSlotS, occursS, hb], fun h => by simp [occursS, hb] at h⟩
      · exact ⟨by simp [replSlotS, occursS, hb], fun _ => by simp [replSlotS, hb]⟩

theorem replSlotSList_spec (wl : Bool) (old new : Node) (ss : List Stmt) :
    (replSlotSList wl old new ss).2 = occursSList old ss
    ∧ (occursSList old ss = false → (replSlotSList wl old new ss).1 = ss) := by
  cases ss with
  | nil => simp [replSlotSList, occursSList]
  | cons s ss =>
      have ih1 := replSlotS_spec wl old new s
      have ih2 := replSlotSList_spec wl old new ss
      constructor
      · by_cases hf : occursS old s = true
        · simp [replSlotSList, occursSList, ih1.1, hf]
        · simp [replSlotSList, occursSList, ih1.1, hf, ih2.1]
      · intro h
        simp only [occursSList, Bool.or_eq_false_iff] at h
        simp [replSlotSList, ih1.1, h.1, ih1.2 h.1, ih2.1, h.2, ih2.2 h.2]

end

/-- The module level: the found flag of `_replace_node` equals slot
occurrence, and no occurrence means the whole call is the identity. -/
theorem replaceNodeAux_spec (wl : Bool) (tree : Module) (old new : Node) :
    (replaceNodeAux wl tree old new).2 = occursInModule old tree
    ∧ (occursInModule old tree = false →
        replaceNodeAux wl tree old new = (tree, false)) := by
  have ih := replSlotSList_spec wl old new tree.body
  constructor
  · simp [replaceNodeAux, occursInModule, ih.1]
  · intro h
    simp only [occursInModule] at h
    simp [replaceNodeAux, ih.1, h, ih.2 h]

end OccursLemmasRest

end TypeGuardian

namespace TypeGuardian

section C7

/-- The assignment `x = 1` at line 5, the `old_node` of the C7
counterexample. -/
def replOld7 : Stmt :=
  .assign [.name "x" (some ⟨5, 0⟩)] (.constant (.intV 1) (some ⟨5, 4⟩)) (some ⟨5, 0⟩)

/-- A freshly built annotated assignment with no location, the `new_node`
of the C7 counterexample (as `MissingHintsFixer._fix_variable_hint` builds
one). -/
def replNew7 : Stmt :=
  .annAssign (.name "x" (some ⟨5, 0⟩)) (.name "int" none)
    (some (.constant (.intV 1) (some ⟨5, 4⟩))) 1 none

def replTree7 : Module := ⟨[replOld7]⟩

end C7

/-- C7 counterexample: the `missing_hints.py` / `generic_fixer.py` variant
of `_replace_node` overwrites the slot but does NOT copy the old node's
source-location metadata onto the new node: replacing the located
assignment (line 5) with a fresh annotated assignment leaves the inserted
node with no location at all, refuting the claim that the replacement
primitive always copies location metadata. -/
theorem claim_C7_counterexample :
    replaceNodeNoLoc replTree7 (.stmtN replOld7) (.stmtN replNew7)
      = ({ body := [replNew7] }, true)
    ∧ stmtLocOf replNew7 = none
    ∧ stmtLocOf replOld7 = some ⟨5, 0⟩ :=
  ⟨rfl, rfl, rfl⟩

/-- C7 (amended): every `_replace_node` variant is a silent no-op leaving
the tree unchanged when `old_node` occurs in no structural slot, and
overwrites a slot (reporting found) when it does occur; at the matched
slot the `optional_fixer.py`/`collection_fixer.py` variant stores `new`
with `old`'s source location copied onto it (`ast.copy_location`), while
the `missing_hints.py`/`generic_fixer.py` variant stores `new` unchanged. -/
theorem claim_C7_amended_replace_node :
    (∀ (wl : Bool) (tree : Module) (old new : Node),
        occursInModule old tree = false →
        replaceNodeAux wl tree old new = (tree, false))
    ∧ (∀ (tree : Module) (old new : Node),
        occursInModule old tree = true →
        (replaceNodeLoc tree old new).2 = true
        ∧ (replaceNodeNoLoc tree old new).2 = true)
    ∧ (∀ (old new : Node) (e : Expr),
        beqNode (.exprN e) old = true →
        replSlotE true old new e = (replacementExpr true old new e, true)
        ∧ replSlotE false old new e = (replacementExpr false old new e, true))
    ∧ (∀ old new : Node,
        replacementFor true old new = copyLocation new old
        ∧ replacementFor false old new = new) := by
  refine ⟨?_, ?_, ?_, ?_⟩
  · intro wl tree old new h
    exact (replaceNodeAux_spec wl tree old new).2 h
  · intro tree old new h
    exact ⟨by rw [replaceNodeLoc, (replaceNodeAux_spec true tree old new).1, h],
      by rw [replaceNodeNoLoc, (replaceNodeAux_spec false tree old new).1, h]⟩
  · intro old new e h
    exact ⟨by rw [replSlotE.eq_def]; simp [h], by rw [replSlotE.eq_def]; simp [h]⟩
  · intro old new
    exact ⟨rfl, by simp [replacementFor]⟩

/-- Witness for the amended C7 at concrete inputs: an absent node is a
no-op, a present node flips the found flag, and a matched expression slot
receives the prepared replacement. -/
theorem claim_C7_amended_witness :
    replaceNodeAux true replTree7 (.stmtN (.ret none (some ⟨9, 9⟩)))
        (.stmtN replNew7) = (replTree7, false)
    ∧ (replaceNodeLoc replTree7 (.stmtN replOld7) (.stmtN replNew7)).2 = true
    ∧ replSlotE true (.exprN (.name "y" none)) (.exprN (.name "z" none))
        (.name "y" none)
      = (replacementExpr true (.exprN (.name "y" none)) (.exprN (.name "z" none))
          (.name "y" none), true) :=
  ⟨claim_C7_amended_replace_node.1 true replTree7 (.stmtN (.ret none (some ⟨9, 9⟩)))
      (.stmtN replNew7) rfl,
   (claim_C7_amended_replace_node.2.1 replTree7 (.stmtN replOld7)
      (.stmtN replNew7) rfl).1,
   (claim_C7_amended_replace_node.2.2.1 (.exprN (.name "y" none))
      (.exprN (.name "z" none)) (.name "y" none) rfl).1⟩

end TypeGuardian

namespace TypeGuardian

section C8Prelims

/-- Is this statement a `from typing import ...`? -/
def isTypingImportFrom : Stmt → Bool
  | .importFrom m _ _ _ => m = some "typing"
  | _ => false

/-- Number of `from typing import ...` statements in a body. -/
def typingImportCount (body : List Stmt) : Nat := body.countP isTypingImportFrom

/-- A `from typing import ...` statement lists no name twice. -/
def typingNamesNodup (s : Stmt) : Prop :=
  match s with
  | .importFrom m names _ _ => m = some "typing" → (names.map (·.aliasName)).Nodup
  | _ => True

/-- Does one statement make the whole typing vocabulary available
(`from typing import *` or `import typing`)? -/
def typingFullOnStmt : Stmt → Bool
  | .importFrom m names _ _ =>
      m = some "typing" && names.any (fun a => a.aliasName = "*")
  | .importS names _ => names.any (fun a => a.aliasName = "typing")
  | _ => false

def typingFullyAvailable (body : List Stmt) : Bool := body.any typingFullOnStmt

/-- A fold whose every step preserves inclusion in `T` stays in `T`. -/
theorem foldl_subset_invariant {α : Type} (T : Finset String)
    (f : Finset String → α → Finset String)
    (hf : ∀ acc x, acc ⊆ T → f acc x ⊆ T) :
    ∀ (l : List α) (acc : Finset String), acc ⊆ T → l.foldl f acc ⊆ T := by
  intro l
  induction l with
  | nil => exact fun acc h => h
  | cons x xs ih => exact fun acc h => ih (f acc x) (hf acc x h)

theorem scanTypingNames_subset (root : Node) (acc : Finset String)
    (h : acc ⊆ typingImports) : scanTypingNames root acc ⊆ typingImports := by
  apply foldl_subset_invariant typingImports _ _ (walk root) acc h
  intro a n ha
  cases n with
  | exprN e =>
      cases e with
      | name id l =>
          by_cases hid : id ∈ typingImports
          · simpa [hid] using Finset.insert_subset_iff.mpr ⟨hid, ha⟩
          · simpa [hid] using ha
      | subscript v sl l =>
          cases v with
          | name id l2 =>
              by_cases hid : id ∈ typingImports
              · simpa [hid] using Finset.insert_subset_iff.mpr ⟨hid, ha⟩
              · simpa [hid] using ha
          | constant cv cl => exact ha
          | call f args cl => exact ha
          | attr av aa al => exact ha
          | subscript sv ssl sl2 => exact ha
          | listE es el => exact ha
          | dictE ks vs dl => exact ha
          | setE es el2 => exact ha
          | tupleE es tl => exact ha
          | binOp ba bo bb bl => exact ha
          | compare ca cos ccs ccl => exact ha
          | boolOp bvs bl2 => exact ha
          | ifExp it ib io il => exact ha
      | constant cv cl => exact ha
      | call f args cl => exact ha
      | attr av aa al => exact ha
      | listE es el => exact ha
      | dictE ks vs dl => exact ha
      | setE es el2 => exact ha
      | tupleE es tl => exact ha
      | binOp ba bo bb bl => exact ha
      | compare ca cos ccs ccl => exact ha
      | boolOp bvs bl2 => exact ha
      | ifExp it ib io il => exact ha
  | moduleN m => exact ha
  | stmtN st => exact ha
  | argN a2 => exact ha

theorem findNeededImports_subset (tree : Module) :
    findNeededImports tree ⊆ typingImports := by
  apply foldl_subset_invariant typingImports _ _ _ _ (Finset.empty_subset _)
  intro acc n ha
  have h1 : (if isAnnotAnchor n then scanTypingNames n acc else acc) ⊆ typingImports := by
    by_cases hanchor : isAnnotAnchor n = true
    · simpa [hanchor] using scanTypingNames_subset n acc ha
    · simpa [hanchor] using ha
  cases n with
  | stmtN s =>
      by_cases htv : isTypeVarAssign s = true
      · simpa [htv] using Finset.insert_subset_iff.mpr ⟨by decide, h1⟩
      · simpa [htv] using h1
  | moduleN m => exact h1
  | exprN e => exact h1
  | argN a => exact h1

theorem findExistingAux_full :
    ∀ (body : List Stmt) (acc : Finset String),
      typingFullyAvailable body = true →
      findExistingImportsAux acc body = typingImports := by
  intro body
  induction body with
  | nil => intro acc h; simp [typingFullyAvailable] at h
  | cons s rest ih =>
      intro acc h
      rw [typingFullyAvailable, List.any_cons] at h
      cases s with
      | importFrom m ns lv l =>
          by_cases hm : m = some "typing"
          · by_cases hw : ns.any (fun a => a.aliasName = "*") = true
            · simp [findExistingImportsAux, hm, hw]
            · have hrest : typingFullyAvailable rest = true := by
                simp [typingFullOnStmt, hw] at h
                simpa [typingFullyAvailable] using h
              simp [findExistingImportsAux, hm, hw, ih _ hrest]
          · have hrest : typingFullyAvailable rest = true := by
              simp [typingFullOnStmt, hm] at h
              simpa [typingFullyAvailable] using h
            simp [findExistingImportsAux, hm, ih _ hrest]
      | importS ns l =>
          by_cases ht : ns.any (fun a => a.aliasName = "typing") = true
          · simp [findExistingImportsAux, ht]
          · have hrest : typingFullyAvailable rest = true := by
              simp [typingFullOnStmt, ht] at h
              simpa [typingFullyAvailable] using h
            simp [findExistingImportsAux, ht, ih _ hrest]
      | functionDef n args body2 r l =>
          have hrest : typingFullyAvailable rest = true := by
            simp [typingFullOnStmt] at h
            simpa [typingFullyAvailable] using h
          simpa [findExistingImportsAux] using ih _ hrest
      | ret v l =>
          have hrest : typingFullyAvailable rest = true := by
            simp [typingFullOnStmt] at h
            simpa [typingFullyAvailable] using h
          simpa [findExistingImportsAux] using ih _ hrest
      | assign ts v l =>
          have hrest : typingFullyAvailable rest = true := by
            simp [typingFullOnStmt] at h
            simpa [typingFullyAvailable] using h
          simpa [findExistingImportsAux] using ih _ hrest
      | annAssign t a v sm l =>
          have hrest : typingFullyAvailable rest = true := by
            simp [typingFullOnStmt] at h
            simpa [typingFullyAvailable] using h
          simpa [findExistingImportsAux] using ih _ hrest
      | ifS t b o l =>
          have hrest : typingFullyAvailable rest = true := by
            simp [typingFullOnStmt] at h
            simpa [typingFullyAvailable] using h
          simpa [findExistingImportsAux] using ih _ hrest
      | forS t i b o l =>
          have hrest : typingFullyAvailable rest = true := by
            simp [typingFullOnStmt] at h
            simpa [typingFullyAvailable] using h
          simpa [findExistingImportsAux] using ih _ hrest
      | exprS v l =>
          have hrest : typingFullyAvailable rest = true := by
            simp [typingFullOnStmt] at h
            simpa [typingFullyAvailable] using h
          simpa [findExistingImportsAux] using ih _ hrest

end C8Prelims

end TypeGuardian

namespace TypeGuardian

section C8Extend

theorem extendFirstTypingImport_none :
    ∀ (body : List Stmt) (imports : Finset String),
      extendFirstTypingImport body imports = none → typingImportCount body = 0 := by
  intro body
  induction body with
  | nil => intro imports _; rfl
  | cons s rest ih =>
      intro imports h
      cases s with
      | importFrom m ns lv l =>
          by_cases hm : m = some "typing"
          · simp [extendFirstTypingImport, hm] at h
          · simp only [extendFirstTypingImport, hm, if_false, reduceIte] at h
            rw [Option.map_eq_none'] at h
            simp [typingImportCount, List.countP_cons, isTypingImportFrom, hm]
            have := ih imports h
            simpa [typingImportCount] using this
      | importS ns l =>
          simp only [extendFirstTypingImport] at h
          rw [Option.map_eq_none'] at h
          simp only [typingImportCount, List.countP_cons, isTypingImportFrom]
          have := ih imports h
          simpa [typingImportCount] using this
      | functionDef n args body2 r l =>
          simp only [extendFirstTypingImport] at h
          rw [Option.map_eq_none'] at h
          simp only [typingImportCount, List.countP_cons, isTypingImportFrom]
          have := ih imports h
          simpa [typingImportCount] using this
      | ret v l =>
          simp only [extendFirstTypingImport] at h
          rw [Option.map_eq_none'] at h
          simp only [typingImportCount, List.countP_cons, isTypingImportFrom]
          have := ih imports h
          simpa [typingImportCount] using this
      | assign ts v l =>
          simp only [extendFirstTypingImport] at h
          rw [Option.map_eq_none'] at h
          simp only [typingImportCount, List.countP_cons, isTypingImportFrom]
          have := ih imports h
          simpa [typingImportCount] using this
      | annAssign t a v sm l =>
          simp only [extendFirstTypingImport] at h
          rw [Option.map_eq_none'] at h
          simp only [typingImportCount, List.countP_cons, isTypingImportFrom]
          have := ih imports h
          simpa [typingImportCount] using this
      | ifS t b o l =>
          simp only [extendFirstTypingImport] at h
          rw [Option.map_eq_none'] at h
          simp only [typingImportCount, List.countP_cons, isTypingImportFrom]
          have := ih imports h
          simpa [typingImportCount] using this
      | forS t i b o l =>
          simp only [extendFirstTypingImport] at h
          rw [Option.map_eq_none'] at h
          simp only [typingImportCount, List.countP_cons, isTypingImportFrom]
          have := ih imports h
          simpa [typingImportCount] using this
      | exprS v l =>
          simp only [extendFirstTypingImport] at h
          rw [Option.map_eq_none'] at h
          simp only [typingImportCount, List.countP_cons, isTypingImportFrom]
          have := ih imports h
          simpa [typingImportCount] using this

end C8Extend

end TypeGuardian

namespace TypeGuardian

section C8ExtendSome

theorem extendFirstTypingImport_some :
    ∀ (body : List Stmt) (imports : Finset String) (body2 : List Stmt),
      extendFirstTypingImport body imports = some body2 →
      typingImportCount body2 = typingImportCount body
      ∧ ((∀ s ∈ body, typingNamesNodup s) → ∀ s2 ∈ body2, typingNamesNodup s2) := by
  intro body
  induction body with
  | nil => intro imports body2 h; simp [extendFirstTypingImport] at h
  | cons s rest ih =>
      intro imports body2 h
      cases s with
      | importFrom m ns lv l =>
          by_cases hm : m = some "typing"
          · subst hm
            simp only [extendFirstTypingImport, reduceIte] at h
            rw [Option.some_inj] at h
            subst h
            constructor
            · simp [typingImportCount, List.countP_cons, isTypingImportFrom]
            · intro hnodup s2 hs2
              rcases List.mem_cons.mp hs2 with rfl | hmem
              · intro _
                rw [List.map_append]
                apply List.Nodup.append
                · exact hnodup _ (List.mem_cons_self _ _) rfl
                · simp only [List.map_map]
                  have heq : ((fun a => a.aliasName) ∘ fun n =>
                      ({ aliasName := n, asname := none } : Alias)) = id := by
                    funext n
                    rfl
                  rw [heq, List.map_id]
                  exact nodup_sortedStrings _
                · intro x hx hx2
                  simp only [List.map_map] at hx2
                  have heq : ((fun a => a.aliasName) ∘ fun n =>
                      ({ aliasName := n, asname := none } : Alias)) = id := by
                    funext n
                    rfl
                  rw [heq, List.map_id] at hx2
                  have hx3 := mem_sortedStrings.mp hx2
                  rw [Finset.mem_sdiff] at hx3
                  exact hx3.2 (List.mem_toFinset.mpr hx)
              · exact hnodup _ (List.mem_cons_of_mem _ hmem)
          · simp only [extendFirstTypingImport, hm, if_false, reduceIte] at h
            rw [Option.map_eq_some'] at h
            obtain ⟨body2a, hrec, rfl⟩ := h
            have hih := ih imports body2a hrec
            have h1 := hih.1
            simp only [typingImportCount] at h1
            constructor
            · simp [typingImportCount, List.countP_cons, h1]
            · intro hnodup s2 hs2
              rcases List.mem_cons.mp hs2 with rfl | hmem
              · exact hnodup _ (List.mem_cons_self _ _)
              · exact hih.2 (fun u hu => hnodup u (List.mem_cons_of_mem _ hu)) s2 hmem
      | importS ns2 l =>
          simp only [extendFirstTypingImport] at h
          rw [Option.map_eq_some'] at h
          obtain ⟨body2a, hrec, rfl⟩ := h
          have hih := ih imports body2a hrec
          have h1 := hih.1
          simp only [typingImportCount] at h1
          constructor
          · simp [typingImportCount, List.countP_cons, h1]
          · intro hnodup s2 hs2
            rcases List.mem_cons.mp hs2 with rfl | hmem
            · exact hnodup _ (List.mem_cons_self _ _)
            · exact hih.2 (fun u hu => hnodup u (List.mem_cons_of_mem _ hu)) s2 hmem
      | functionDef n2 args2 fbody r l =>
          simp only [extendFirstTypingImport] at h
          rw [Option.map_eq_some'] at h
          obtain ⟨body2a, hrec, rfl⟩ := h
          have hih := ih imports body2a hrec
          have h1 := hih.1
          simp only [typingImportCount] at h1
          constructor
          · simp [typingImportCount, List.countP_cons, h1]
          · intro hnodup s2 hs2
            rcases List.mem_cons.mp hs2 with rfl | hmem
            · exact hnodup _ (List.mem_cons_self _ _)
            · exact hih.2 (fun u hu => hnodup u (List.mem_cons_of_mem _ hu)) s2 hmem
      | ret v l =>
          simp only [extendFirstTypingImport] at h
          rw [Option.map_eq_some'] at h
          obtain ⟨body2a, hrec, rfl⟩ := h
          have hih := ih imports body2a hrec
          have h1 := hih.1
          simp only [typingImportCount] at h1
          constructor
          · simp [typingImportCount, List.countP_cons, h1]
          · intro hnodup s2 hs2
            rcases List.mem_cons.mp hs2 with rfl | hmem
            · exact hnodup _ (List.mem_cons_self _ _)
            · exact hih.2 (fun u hu => hnodup u (List.mem_cons_of_mem _ hu)) s2 hmem
      | assign ts v l =>
          simp only [extendFirstTypingImport] at h
          rw [Option.map_eq_some'] at h
          obtain ⟨body2a, hrec, rfl⟩ := h
          have hih := ih imports body2a hrec
          have h1 := hih.1
          simp only [typingImportCount] at h1
          constructor
          · simp [typingImportCount, List.countP_cons, h1]
          · intro hnodup s2 hs2
            rcases List.mem_cons.mp hs2 with rfl | hmem
            · exact hnodup _ (List.mem_cons_self _ _)
            · exact hih.2 (fun u hu => hnodup u (List.mem_cons_of_mem _ hu)) s2 hmem
      | annAssign t a v sm l =>
          simp only [extendFirstTypingImport] at h
          rw [Option.map_eq_some'] at h
          obtain ⟨body2a, hrec, rfl⟩ := h
          have hih := ih imports body2a hrec
          have h1 := hih.1
          simp only [typingImportCount] at h1
          constructor
          · simp [typingImportCount, List.countP_cons, h1]
          · intro hnodup s2 hs2
            rcases List.mem_cons.mp hs2 with rfl | hmem
            · exact hnodup _ (List.mem_cons_self _ _)
            · exact hih.2 (fun u hu => hnodup u (List.mem_cons_of_mem _ hu)) s2 hmem
      | ifS t b o l =>
          simp only [extendFirstTypingImport] at h
          rw [Option.map_eq_some'] at h
          obtain ⟨body2a, hrec, rfl⟩ := h
          have hih := ih imports body2a hrec
          have h1 := hih.1
          simp only [typingImportCount] at h1
          constructor
          · simp [typingImportCount, List.countP_cons, h1]
          · intro hnodup s2 hs2
            rcases List.mem_cons.mp hs2 with rfl | hmem
            · exact hnodup _ (List.mem_cons_self _ _)
            · exact hih.2 (fun u hu => hnodup u (List.mem_cons_of_mem _ hu)) s2 hmem
      | forS t i b o l =>
          simp only [extendFirstTypingImport] at h
          rw [Option.map_eq_some'] at h
          obtain ⟨body2a, hrec, rfl⟩ := h
          have hih := ih imports body2a hrec
          have h1 := hih.1
          simp only [typingImportCount] at h1
          constructor
          · simp [typingImportCount, List.countP_cons, h1]
          · intro hnodup s2 hs2
            rcases List.mem_cons.mp hs2 with rfl | hmem
            · exact hnodup _ (List.mem_cons_self _ _)
            · exact hih.2 (fun u hu => hnodup u (List.mem_cons_of_mem _ hu)) s2 hmem
      | exprS v l =>
          simp only [extendFirstTypingImport] at h
          rw [Option.map_eq_some'] at h
          obtain ⟨body2a, hrec, rfl⟩ := h
          have hih := ih imports body2a hrec
          have h1 := hih.1
          simp only [typingImportCount] at h1
          constructor
          · simp [typingImportCount, List.countP_cons, h1]
          · intro hnodup s2 hs2
            rcases List.mem_cons.mp hs2 with rfl | hmem
            · exact hnodup _ (List.mem_cons_self _ _)
            · exact hih.2 (fun u hu => hnodup u (List.mem_cons_of_mem _ hu)) s2 hmem

end C8ExtendSome

end TypeGuardian

namespace TypeGuardian

section C8Scenario

/-- Scenario E of the spec: a function annotated with `List[str]` and
`Optional[int]`, with no prior import. -/
def scenarioETree : Module :=
  ⟨[.functionDef "f"
      [⟨"x", some (.subscript (.name "List" (some ⟨1, 9⟩))
          (.name "str" (some ⟨1, 14⟩)) (some ⟨1, 9⟩)), some ⟨1, 6⟩⟩]
      [.ret (some (.name "x" (some ⟨2, 11⟩))) (some ⟨2, 4⟩)]
      (some (.subscript (.name "Optional" (some ⟨1, 23⟩))
        (.name "int" (some ⟨1, 32⟩)) (some ⟨1, 23⟩)))
      (some ⟨1, 0⟩)]⟩

/-- Scenario E's required output: one merged typing import naming both
`List` and `Optional`, alphabetically ordered, inserted before the
function. -/
def scenarioEExpected : Module :=
  ⟨Stmt.importFrom (some "typing")
      [⟨"List", none⟩, ⟨"Optional", none⟩] 0 none :: scenarioETree.body⟩

end C8Scenario

/-- C8: the import reconciler keeps at most one `from typing import ...`
statement (it never inserts a second one) and keeps every typing import's
name list duplicate-free; a wildcard or whole-module typing import makes
it a no-op; and on scenario E it inserts exactly one statement naming
`List` and `Optional` in alphabetical order. -/
theorem claim_C8_import_reconciler :
    (∀ tree : Module,
        typingImportCount tree.body ≤ 1 →
        (∀ s ∈ tree.body, typingNamesNodup s) →
        typingImportCount (addMissingImports tree).1.body ≤ 1
        ∧ ∀ s ∈ (addMissingImports tree).1.body, typingNamesNodup s)
    ∧ (∀ tree : Module, typingFullyAvailable tree.body = true →
        addMissingImports tree = (tree, 0))
    ∧ addMissingImports scenarioETree = (scenarioEExpected, 2) := by
  refine ⟨?_, ?_, rfl⟩
  · intro tree hcount hnodup
    by_cases hm : findNeededImports tree \ findExistingImports tree = ∅
    · simpa [addMissingImports, hm] using ⟨hcount, hnodup⟩
    · simp only [addMissingImports, hm, if_neg, reduceIte]
      cases hext : extendFirstTypingImport tree.body
          (findNeededImports tree \ findExistingImports tree) with
      | some body2 =>
          have he := extendFirstTypingImport_some tree.body _ body2 hext
          constructor
          · simp only [addImportStatement, hext]
            exact le_trans (le_of_eq he.1) hcount
          · simp only [addImportStatement, hext]
            exact he.2 hnodup
      | none =>
          have h0 := extendFirstTypingImport_none tree.body _ hext
          constructor
          · simp only [addImportStatement, hext, typingImportCount,
              List.countP_append, List.countP_cons]
            have hsplit : List.countP isTypingImportFrom tree.body =
                List.countP isTypingImportFrom
                  (tree.body.take (findImportPosition tree.body)) +
                List.countP isTypingImportFrom
                  (tree.body.drop (findImportPosition tree.body)) := by
              conv_lhs => rw [← List.take_append_drop (findImportPosition tree.body) tree.body]
              rw [List.countP_append]
            simp only [typingImportCount] at h0
            rw [hsplit] at h0
            have : isTypingImportFrom (Stmt.importFrom (some "typing")
                ((sortedStrings (findNeededImports tree \ findExistingImports tree)).map
                  fun n => { aliasName := n, asname := none }) 0 none) = true := rfl
            rw [if_pos this]
            omega
          · simp only [addImportStatement, hext]
            intro s2 hs2
            rcases List.mem_append.mp hs2 with h1 | h2
            · exact hnodup s2 (List.take_subset _ _ h1)
            · rcases List.mem_cons.mp h2 with rfl | h3
              · intro _
                simp only [List.map_map]
                have heq : ((fun a => a.aliasName) ∘ fun n =>
                    ({ aliasName := n, asname := none } : Alias)) = id := by
                  funext n
                  rfl
                rw [heq, List.map_id]
                exact nodup_sortedStrings _
              · exact hnodup s2 (List.drop_subset _ _ h3)
  · intro tree h
    have hfull : findExistingImports tree = typingImports :=
      findExistingAux_full tree.body ∅ h
    have hsub : findNeededImports tree ⊆ typingImports := findNeededImports_subset tree
    have hdiff : findNeededImports tree \ findExistingImports tree = ∅ := by
      rw [hfull]
      exact Finset.sdiff_eq_empty_iff_subset.mpr hsub
    simp [addMissingImports, hdiff]

/-- Witness for C8's universally quantified parts at concrete inputs. -/
theorem claim_C8_witness :
    (typingImportCount (addMissingImports scenarioETree).1.body ≤ 1
      ∧ ∀ s ∈ (addMissingImports scenarioETree).1.body, typingNamesNodup s)
    ∧ addMissingImports ⟨[.importS [⟨"typing", none⟩] (some ⟨1, 0⟩)]⟩
        = (⟨[.importS [⟨"typing", none⟩] (some ⟨1, 0⟩)]⟩, 0) :=
  ⟨claim_C8_import_reconciler.1 scenarioETree (by decide)
      (by
        intro s hs
        simp only [scenarioETree] at hs
        rw [List.mem_singleton] at hs
        subst hs
        trivial),
   claim_C8_import_reconciler.2.1 ⟨[.importS [⟨"typing", none⟩] (some ⟨1, 0⟩)]⟩ rfl⟩

end TypeGuardian

namespace TypeGuardian

section CacheLemmas

/-- A cache hit short-circuits `_lookup_variable_type`: the cached string
is returned and the cache is untouched, whatever the context tree. -/
theorem lookupVariableType_cached (fuel : Nat) (strict : Bool) (c : Cache)
    (ctx : Node) (v t : String) (h : cacheFind c v = some t) :
    lookupVariableType fuel strict c ctx v = (some t, c) := by
  cases fuel <;> simp [lookupVariableType, h]

mutual

/-- `_infer_expr_type` never invalidates a cache entry: an existing
binding survives with its value. -/
theorem inferExprType_preserves (fuel : Nat) (strict : Bool) (c : Cache)
    (ctx : Node) (e : Expr) (v t : String) (h : cacheFind c v = some t) :
    cacheFind (inferExprType fuel strict c ctx e).2 v = some t := by
  cases fuel with
  | zero => simpa [inferExprType] using h
  | succ fuel =>
      cases e with
      | constant cv l => simpa [inferExprType] using h
      | name id l => exact lookupVariableType_preserves fuel strict c ctx id v t h
      | call f args l =>
          cases f with
          | name fid fl =>
              simp only [inferExprType]
              split_ifs
              · simpa using h
              · split <;> simpa using h
          | constant cv cl => simpa [inferExprType] using h
          | call f2 a2 l2 => simpa [inferExprType] using h
          | attr av aa al => simpa [inferExprType] using h
          | subscript sv sl sl2 => simpa [inferExprType] using h
          | listE es el => simpa [inferExprType] using h
          | dictE ks vs dl => simpa [inferExprType] using h
          | setE es el2 => simpa [inferExprType] using h
          | tupleE es tl => simpa [inferExprType] using h
          | binOp ba bo bb bl => simpa [inferExprType] using h
          | compare ca cos ccs ccl => simpa [inferExprType] using h
          | boolOp bvs bl2 => simpa [inferExprType] using h
          | ifExp it ib io il => simpa [inferExprType] using h
      | listE elts l =>
          cases elts with
          | nil => simpa [inferExprType] using h
          | cons e2 es =>
              have hp := inferExprList_preserves fuel strict c ctx (e2 :: es) v t h
              simp only [inferExprType]
              split <;> exact hp
      | dictE ks vs l =>
          have hk := inferExprList_preserves fuel strict c ctx (ks.filterMap id) v t h
          have hv := inferExprList_preserves fuel strict
            (inferExprList fuel strict c ctx (ks.filterMap id)).2 ctx vs v t hk
          simpa [inferExprType] using hv
      | setE elts l =>
          cases elts with
          | nil => simpa [inferExprType] using h
          | cons e2 es =>
              have hp := inferExprList_preserves fuel strict c ctx (e2 :: es) v t h
              simp only [inferExprType]
              split <;> exact hp
      | tupleE elts l =>
          have hp := inferExprList_preserves fuel strict c ctx elts v t h
          simp only [inferExprType]
          split_ifs <;> exact hp
      | binOp a o b l =>
          have hl := inferExprType_preserves fuel strict c ctx a v t h
          have hr := inferExprType_preserves fuel strict
            (inferExprType fuel strict c ctx a).2 ctx b v t hl
          cases o <;> simp only [inferExprType] <;> first
            | (split_ifs <;> exact hr)
            | exact hr
      | compare a os cs l => simpa [inferExprType] using h
      | boolOp vs l => simpa [inferExprType] using h
      | ifExp it ib io l =>
          have hb := inferExprType_preserves fuel strict c ctx ib v t h
          have ho := inferExprType_preserves fuel strict
            (inferExprType fuel strict c ctx ib).2 ctx io v t hb
          simp only [inferExprType]
          split_ifs <;> exact ho
      | attr av aa l => simpa [inferExprType] using h
      | subscript sv sl l => simpa [inferExprType] using h

theorem inferExprList_preserves (fuel : Nat) (strict : Bool) (c : Cache)
    (ctx : Node) (es : List Expr) (v t : String) (h : cacheFind c v = some t) :
    cacheFind (inferExprList fuel strict c ctx es).2 v = some t := by
  cases fuel with
  | zero => cases es <;> simpa [inferExprList] using h
  | succ fuel =>
      cases es with
      | nil => simpa [inferExprList] using h
      | cons e es =>
          have h1 := inferExprType_preserves fuel strict c ctx e v t h
          have h2 := inferExprList_preserves fuel strict
            (inferExprType fuel strict c ctx e).2 ctx es v t h1
          simpa [inferExprList] using h2

theorem lookupVariableType_preserves (fuel : Nat) (strict : Bool) (c : Cache)
    (ctx : Node) (v2 v t : String) (h : cacheFind c v = some t) :
    cacheFind (lookupVariableType fuel strict c ctx v2).2 v = some t := by
  cases hc : cacheFind c v2 with
  | some t2 =>
      rw [lookupVariableType_cached fuel strict c ctx v2 t2 hc]
      exact h
  | none =>
      cases fuel with
      | zero => simpa [lookupVariableType, hc] using h
      | succ fuel =>
          simp only [lookupVariableType, hc]
          cases hfa : findAssignments v2 ctx with
          | nil => simpa using h
          | cons a rest =>
              have hne : v2 ≠ v := by
                intro he
                rw [he, h] at hc
                cases hc
              have hp := inferExprType_preserves fuel strict c ctx (assignValueOf a) v t h
              cases hp1 : (inferExprType fuel strict c ctx (assignValueOf a)).1 with
              | none => simpa [hp1] using hp
              | some t2 =>
                  by_cases ht2 : t2 = ""
                  · simpa [hp1, ht2] using hp
                  · simpa [hp1, ht2, cacheInsert, cacheFind, hne] using hp

end

end CacheLemmas

end TypeGuardian

namespace TypeGuardian

section CacheLift

/-- A fold whose every step preserves a cache binding preserves it. -/
theorem foldl_cache_preserves {α β : Type} (f : β → α → β) (proj : β → Cache)
    (v t : String)
    (hstep : ∀ b a, cacheFind (proj b) v = some t → cacheFind (proj (f b a)) v = some t) :
    ∀ (l : List α) (b : β), cacheFind (proj b) v = some t →
      cacheFind (proj (l.foldl f b)) v = some t := by
  intro l
  induction l with
  | nil => exact fun b h => h
  | cons x xs ih => exact fun b h => ih (f b x) (hstep b x h)

theorem collectReturnTypes_preserves (fuel : Nat) (strict : Bool) (c : Cache)
    (func : Stmt) (v t : String) (h : cacheFind c v = some t) :
    cacheFind (collectReturnTypes fuel strict c func).2.2 v = some t := by
  simp only [collectReturnTypes]
  apply foldl_cache_preserves _ (fun b : Finset String × Bool × Cache => b.2.2) v t _ _ _ h
  intro b n hb
  cases n with
  | stmtN s =>
      cases s with
      | ret v2 l =>
          cases v2 with
          | none => exact hb
          | some e =>
              have := inferExprType_preserves fuel strict b.2.2 (.stmtN func) e v t hb
              simp only []
              split <;> first
                | (split_ifs <;> simpa using this)
                | simpa using this
      | functionDef n2 a2 b2 r2 l => exact hb
      | assign ts v2 l => exact hb
      | annAssign t2 a2 v2 sm l => exact hb
      | ifS t2 b2 o2 l => exact hb
      | forS t2 i2 b2 o2 l => exact hb
      | exprS v2 l => exact hb
      | importS ns l => exact hb
      | importFrom m ns lv l => exact hb
  | moduleN m => exact hb
  | exprN e => exact hb
  | argN a => exact hb

theorem inferReturnType_preserves (fuel : Nat) (strict : Bool) (c : Cache)
    (func : Stmt) (v t : String) (h : cacheFind c v = some t) :
    cacheFind (inferReturnType fuel strict c func).2 v = some t := by
  have hc := collectReturnTypes_preserves fuel strict c func v t h
  simp only [inferReturnType]
  split_ifs <;> simpa using hc

theorem analyzeParamUsage_preserves (fuel : Nat) (strict : Bool) (c : Cache)
    (p : String) (func : Stmt) (v t : String) (h : cacheFind c v = some t) :
    cacheFind (analyzeParamUsage fuel strict c p func).2 v = some t := by
  simp only [analyzeParamUsage]
  apply foldl_cache_preserves _ (fun b : List UsagePattern × Cache => b.2) v t _ _ _ h
  intro b n hb
  split <;> first
    | exact hb
    | (split_ifs <;> first
        | simpa using hb
        | exact inferExprType_preserves _ _ _ _ _ _ _ hb)

theorem inferParamType_preserves (fuel : Nat) (strict : Bool) (c : Cache)
    (p : String) (func : Stmt) (v t : String) (h : cacheFind c v = some t) :
    cacheFind (inferParamType fuel strict c p func).2 v = some t := by
  have ha := analyzeParamUsage_preserves fuel strict c p func v t h
  simp only [inferParamType]
  split <;> simpa using ha

theorem inferVariableTypeAll_preserves (fuel : Nat) (strict : Bool) (c : Cache)
    (v2 : String) (tree : Node) (v t : String) (h : cacheFind c v = some t) :
    cacheFind (inferVariableTypeAll fuel strict c v2 tree).2 v = some t := by
  have hfold : cacheFind (((findAssignments v2 tree).foldl
      (fun acc a =>
        let p := inferExprType fuel strict acc.2 tree (assignValueOf a)
        match p.1 with
        | some t2 => if t2 ≠ "" then (insert t2 acc.1, p.2) else (acc.1, p.2)
        | none => (acc.1, p.2))
      ((∅ : Finset String), c))).2 v = some t := by
    apply foldl_cache_preserves _ (fun b : Finset String × Cache => b.2) v t _ _ _ h
    intro b a hb
    have := inferExprType_preserves fuel strict b.2 tree (assignValueOf a) v t hb
    simp only []
    split <;> [skip; simpa using this]
    split_ifs <;> simpa using this
  simp only [inferVariableTypeAll]
  split_ifs <;> simpa using hfold

theorem inferVariableType_preserves (fuel : Nat) (strict : Bool) (c : Cache)
    (v2 : String) (context tree : Node) (v t : String) (h : cacheFind c v = some t) :
    cacheFind (inferVariableType fuel strict c v2 context tree).2 v = some t := by
  cases context with
  | stmtN s =>
      cases s with
      | assign ts value l =>
          have hp := inferExprType_preserves fuel strict c tree value v t h
          simp only [inferVariableType]
          cases hv : (inferExprType fuel strict c tree value).1 with
          | none => exact inferVariableTypeAll_preserves fuel strict _ v2 tree v t hp
          | some t2 =>
              simp only []
              split_ifs
              · simpa using hp
              · exact inferVariableTypeAll_preserves fuel strict _ v2 tree v t hp
      | functionDef n2 a2 b2 r2 l =>
          exact inferVariableTypeAll_preserves fuel strict c v2 tree v t h
      | annAssign t2 a2 vv sm l =>
          exact inferVariableTypeAll_preserves fuel strict c v2 tree v t h
      | ifS t2 b2 o2 l =>
          exact inferVariableTypeAll_preserves fuel strict c v2 tree v t h
      | forS t2 i2 b2 o2 l =>
          exact inferVariableTypeAll_preserves fuel strict c v2 tree v t h
      | ret vv l =>
          exact inferVariableTypeAll_preserves fuel strict c v2 tree v t h
      | exprS vv l =>
          exact inferVariableTypeAll_preserves fuel strict c v2 tree v t h
      | importS ns l =>
          exact inferVariableTypeAll_preserves fuel strict c v2 tree v t h
      | importFrom m ns lv l =>
          exact inferVariableTypeAll_preserves fuel strict c v2 tree v t h
  | moduleN m => exact inferVariableTypeAll_preserves fuel strict c v2 tree v t h
  | exprN e => exact inferVariableTypeAll_preserves fuel strict c v2 tree v t h
  | argN a => exact inferVariableTypeAll_preserves fuel strict c v2 tree v t h

end CacheLift

end TypeGuardian

namespace TypeGuardian

section CacheLiftFixers

/-- The parameter-filling loop of the hints fixer never invalidates a cache
entry. -/
theorem fillParamAnnots_preserves (fuel : Nat) (strict : Bool)
    (fname : String) (body : List Stmt) (r : Option Expr) (l : Option Loc)
    (v t : String) :
    ∀ (todo done : List Arg) (c : Cache) (modified : Bool),
      cacheFind c v = some t →
      cacheFind (fillParamAnnots fuel strict c fname done todo body r l modified).2.1 v
        = some t := by
  intro todo
  induction todo with
  | nil => intro done c m h; simpa [fillParamAnnots] using h
  | cons a rest ih =>
      intro done c m h
      cases ha : a.annot with
      | some e =>
          simp only [fillParamAnnots, ha]
          exact ih _ _ _ h
      | none =>
          simp only [fillParamAnnots, ha]
          have hp := inferParamType_preserves fuel strict c a.argName
            (Stmt.functionDef fname (done ++ a :: rest) body r l) v t h
          split_ifs <;> exact ih _ _ _ hp

/-- `_fix_function_hints` never invalidates a cache entry. -/
theorem missingHintsFixFunction_preserves (fuel : Nat) (strict : Bool) (c : Cache)
    (fname : String) (args : List Arg) (body : List Stmt) (r : Option Expr)
    (l : Option Loc) (tree : Module) (err : Error) (v t : String)
    (h : cacheFind c v = some t) :
    cacheFind (missingHintsFixFunction fuel strict c fname args body r l tree err).2.2 v
      = some t := by
  simp only [missingHintsFixFunction]
  apply fillParamAnnots_preserves
  cases r with
  | some e => simpa using h
  | none =>
      simp only []
      split_ifs with h1 h2
      · simpa using inferReturnType_preserves fuel strict c
          (Stmt.functionDef fname args body none l) v t h
      · simpa using inferReturnType_preserves fuel strict c
          (Stmt.functionDef fname args body none l) v t h
      · simpa using h

/-- `_fix_variable_hint` never invalidates a cache entry. -/
theorem missingHintsFixVariable_preserves (fuel : Nat) (strict : Bool) (c : Cache)
    (targets : List Expr) (value : Expr) (l : Option Loc) (tree : Module)
    (v t : String) (h : cacheFind c v = some t) :
    cacheFind (missingHintsFixVariable fuel strict c targets value l tree).2.2 v
      = some t := by
  cases targets with
  | nil => simpa [missingHintsFixVariable] using h
  | cons tg rest =>
      cases rest with
      | cons t2 r2 => simpa [missingHintsFixVariable] using h
      | nil =>
          cases tg with
          | name varName vl =>
              simp only [missingHintsFixVariable]
              have := inferVariableType_preserves fuel strict c varName
                (Node.stmtN (Stmt.assign [Expr.name varName vl] value l))
                (Node.moduleN tree) v t h
              split_ifs <;> simpa using this
          | constant cv cl => simpa [missingHintsFixVariable] using h
          | call f2 a2 l2 => simpa [missingHintsFixVariable] using h
          | attr av aa al => simpa [missingHintsFixVariable] using h
          | subscript sv sl sl2 => simpa [missingHintsFixVariable] using h
          | listE es el => simpa [missingHintsFixVariable] using h
          | dictE ks vs dl => simpa [missingHintsFixVariable] using h
          | setE es el2 => simpa [missingHintsFixVariable] using h
          | tupleE es tl => simpa [missingHintsFixVariable] using h
          | binOp ba bo bb bl => simpa [missingHintsFixVariable] using h
          | compare ca cos ccs ccl => simpa [missingHintsFixVariable] using h
          | boolOp bvs bl2 => simpa [missingHintsFixVariable] using h
          | ifExp it ib io il => simpa [missingHintsFixVariable] using h

/-- `MissingHintsFixer.fix` never invalidates a cache entry. -/
theorem missingHintsFix_preserves (fuel : Nat) (strict : Bool) (c : Cache)
    (err : Error) (tree : Module) (v t : String) (h : cacheFind c v = some t) :
    cacheFind (missingHintsFix fuel strict c err tree).2.2 v = some t := by
  simp only [missingHintsFix]
  split <;> first
    | simpa using h
    | exact missingHintsFixFunction_preserves _ _ _ _ _ _ _ _ _ _ v t h
    | exact missingHintsFixVariable_preserves _ _ _ _ _ _ _ v t h

/-- The per-file error loop never invalidates a cache entry. -/
theorem processFileHints_preserves (fuel : Nat) (strict : Bool) (c : Cache)
    (tree : Module) (errs : List Error) (v t : String)
    (h : cacheFind c v = some t) :
    cacheFind (processFileHints fuel strict c tree errs).2.2 v = some t := by
  simp only [processFileHints]
  apply foldl_cache_preserves _ (fun b : Module × Nat × Cache => b.2.2) v t _ _ _ h
  intro b err hb
  split_ifs with hc <;> first
    | exact hb
    | simpa using missingHintsFix_preserves fuel strict b.2.2 err b.1 v t hb

/-- The whole-batch file loop never invalidates a cache entry. -/
theorem runnerHintsBatch_preserves (fuel : Nat) (strict : Bool) (c : Cache)
    (files : List (Module × List Error)) (v t : String)
    (h : cacheFind c v = some t) :
    cacheFind (runnerHintsBatch fuel strict c files).2.2 v = some t := by
  simp only [runnerHintsBatch]
  apply foldl_cache_preserves _ (fun b : List Module × Nat × Cache => b.2.2) v t _ _ _ h
  intro b f hb
  simpa using processFileHints_preserves fuel strict b.2.2 f.1 f.2 v t hb

end CacheLiftFixers

section ClaimC10

/-- C10: the inferrer's `type_cache` is keyed by the bare variable name and
is never invalidated.  (i) A cached lookup returns the cached string and
leaves the cache untouched, whatever context tree is passed; (ii) hence the
lookup result for a cached name is independent of the context; (iii) an
entry survives an entire `auto_fix_all` hint batch, which owns a single
`MissingHintsFixer` and so a single cache; (iv) therefore, once a type is
recorded for a name, `_lookup_variable_type` on that name returns it in
every later file of the same batch, in any context. -/
theorem claim_C10_cache_never_invalidated (fuel : Nat) (strict : Bool)
    (c : Cache) (v t : String) (h : cacheFind c v = some t) :
    (∀ ctx : Node, lookupVariableType fuel strict c ctx v = (some t, c)) ∧
    (∀ ctx1 ctx2 : Node,
      lookupVariableType fuel strict c ctx1 v
        = lookupVariableType fuel strict c ctx2 v) ∧
    (∀ files : List (Module × List Error),
      cacheFind (runnerHintsBatch fuel strict c files).2.2 v = some t) ∧
    (∀ (files : List (Module × List Error)) (ctx : Node) (fuel2 : Nat),
      lookupVariableType fuel2 strict (runnerHintsBatch fuel strict c files).2.2 ctx v
        = (some t, (runnerHintsBatch fuel strict c files).2.2)) := by
  refine ⟨fun ctx => lookupVariableType_cached fuel strict c ctx v t h,
    fun ctx1 ctx2 => ?_, fun files => runnerHintsBatch_preserves fuel strict c files v t h,
    fun files ctx fuel2 => lookupVariableType_cached fuel2 strict _ ctx v t
      (runnerHintsBatch_preserves fuel strict c files v t h)⟩
  rw [lookupVariableType_cached fuel strict c ctx1 v t h,
    lookupVariableType_cached fuel strict c ctx2 v t h]

end ClaimC10

end TypeGuardian

namespace TypeGuardian

theorem claim_C10_witness :
    cacheFind [("user", "User")] "user" = some "User" ∧
    lookupVariableType 6 false [("user", "User")]
      (Node.moduleN ⟨[]⟩) "user" = (some "User", [("user", "User")]) ∧
    cacheFind
      (runnerHintsBatch 6 false [("user", "User")]
        [(⟨[Stmt.functionDef "f" [⟨"x", none, none⟩]
              [Stmt.ret (some (Expr.name "x" (some ⟨2, 4⟩))) (some ⟨2, 4⟩)]
              none (some ⟨1, 0⟩)]⟩,
          [⟨"missing_type_hint", 1,
            "Function is missing a return type annot", some "f"⟩])]).2.2
      "user" = some "User" := by
  refine ⟨rfl, ?_, ?_⟩
  · exact (claim_C10_cache_never_invalidated 6 false [("user", "User")] "user" "User" rfl).1 _
  · exact (claim_C10_cache_never_invalidated 6 false [("user", "User")] "user" "User" rfl).2.2.1 _

end TypeGuardian
